import Mathlib

/-!
Formal model of the SCTE-35 splice descriptor subsystem of the threefive
package (src/threefive/descriptors.py), as a bit-level shallow embedding.

The descriptor classes are translated from src/threefive/descriptors.py.
The bit cursor pair (the bitn.BitBin / bitn.NBin classes) and the
segmentation lookup tables (threefive.segmentation.table20 / table22) are
not present under src/; those definitions are modelled from the
specification and are marked as such in their doc comments.
-/

/-- Failure outcomes of the embedded python code: a bit-level read past the
end of the cursor, loop fuel exhaustion of the model, a python IndexError,
TypeError, or UnicodeDecodeError. -/
inductive Err where
  | bufferUnderrun
  | outOfFuel
  | indexError
  | typeError
  | unicodeDecodeError
deriving DecidableEq, Repr

/-- A bit string, most significant bit first. -/
abbrev Bits := List Bool

/-- Value of a big-endian bit string. -/
def bitsToNat : Bits → Nat
  | [] => 0
  | b :: l => (if b then 1 else 0) * 2 ^ l.length + bitsToNat l

/-- Big-endian bit string of width n holding a value (taken modulo 2 ^ n). -/
def natToBits (v : Nat) : Nat → Bits
  | 0 => []
  | n + 1 => v.testBit n :: natToBits v n

@[simp]
theorem natToBits_length (v n : Nat) : (natToBits v n).length = n := by
  induction n with
  | zero => rfl
  | succ n ih => simp [natToBits, ih]

theorem bitsToNat_lt (l : Bits) : bitsToNat l < 2 ^ l.length := by
  induction l with
  | nil => simp [bitsToNat]
  | cons b l ih =>
    simp only [bitsToNat, List.length_cons, pow_succ]
    cases b <;> simp <;> omega

theorem natToBits_congr (n v w : Nat) (h : v % 2 ^ n = w % 2 ^ n) :
    natToBits v n = natToBits w n := by
  induction n with
  | zero => rfl
  | succ n ih =>
    have hbit : v.testBit n = w.testBit n := by
      have hv := Nat.testBit_mod_two_pow v (n + 1) n
      have hw := Nat.testBit_mod_two_pow w (n + 1) n
      simp only [Nat.lt_succ_self] at hv hw
      simp only [decide_True, Bool.true_and] at hv hw
      rw [← hv, ← hw, h]
    have htail : v % 2 ^ n = w % 2 ^ n := by
      have hv : v % 2 ^ n = v % 2 ^ (n + 1) % 2 ^ n :=
        (Nat.mod_mod_of_dvd v (pow_dvd_pow 2 (Nat.le_succ n))).symm
      have hw : w % 2 ^ n = w % 2 ^ (n + 1) % 2 ^ n :=
        (Nat.mod_mod_of_dvd w (pow_dvd_pow 2 (Nat.le_succ n))).symm
      rw [hv, hw, h]
    simp [natToBits, hbit, ih htail]

theorem natToBits_bitsToNat (l : Bits) : natToBits (bitsToNat l) l.length = l := by
  induction l with
  | nil => rfl
  | cons b l ih =>
    have hlt := bitsToNat_lt l
    have hbit : (bitsToNat (b :: l)).testBit l.length = b := by
      have hdiv : bitsToNat (b :: l) / 2 ^ l.length = if b then 1 else 0 := by
        simp only [bitsToNat]
        rw [mul_comm, Nat.mul_add_div (by positivity)]
        simp [Nat.div_eq_of_lt hlt]
      rw [Nat.testBit_to_div_mod, hdiv]
      cases b <;> simp
    have htail : bitsToNat (b :: l) % 2 ^ l.length = bitsToNat l % 2 ^ l.length := by
      simp only [bitsToNat]
      cases b <;> simp [Nat.add_mul_mod_self_left, Nat.mul_mod_left]
    simp only [List.length_cons, natToBits, hbit]
    rw [natToBits_congr _ _ _ htail, ih]

/-- Bit string of a byte sequence, each byte contributing 8 bits. -/
def bytesToBits : List Nat → Bits
  | [] => []
  | b :: bs => natToBits b 8 ++ bytesToBits bs

@[simp]
theorem bytesToBits_length (bs : List Nat) : (bytesToBits bs).length = 8 * bs.length := by
  induction bs with
  | nil => rfl
  | cons b bs ih => simp [bytesToBits, ih]; ring

theorem bytesToBits_append (xs ys : List Nat) :
    bytesToBits (xs ++ ys) = bytesToBits xs ++ bytesToBits ys := by
  induction xs with
  | nil => rfl
  | cons x xs ih => simp [bytesToBits, ih]

theorem bytesToBits_drop (k : Nat) (bs : List Nat) :
    bytesToBits (bs.drop k) = (bytesToBits bs).drop (8 * k) := by
  induction k generalizing bs with
  | zero => simp
  | succ k ih =>
    cases bs with
    | nil => simp [bytesToBits]
    | cons b bs =>
      calc bytesToBits ((b :: bs).drop (k + 1)) = bytesToBits (bs.drop k) := rfl
        _ = (bytesToBits bs).drop (8 * k) := ih bs
        _ = ((natToBits b 8 ++ bytesToBits bs).drop (natToBits b 8).length).drop (8 * k) := by
              rw [List.drop_left]
        _ = (bytesToBits (b :: bs)).drop (8 * (k + 1)) := by
              rw [List.drop_drop]
              simp only [bytesToBits]
              congr 1
              simp
              ring

/-- Group a bit string into byte values, 8 bits at a time; a ragged tail
of fewer than 8 bits becomes one final value. -/
def bitsToBytes : Bits → List Nat
  | [] => []
  | b0 :: b1 :: b2 :: b3 :: b4 :: b5 :: b6 :: b7 :: rest =>
      bitsToNat [b0, b1, b2, b3, b4, b5, b6, b7] :: bitsToBytes rest
  | l => [bitsToNat l]

/-- Best-effort string decoding of a byte sequence.  Modelled from the spec:
the read_decoded_string operation performs a best-effort UTF-8 decoding in
which non-decodable byte sequences are replaced or dropped rather than
raising; the model keeps the ASCII bytes and drops the rest. -/
def decodeAscii (bs : List Nat) : String :=
  String.mk ((bs.filter (fun b => b < 128)).map Char.ofNat)

/-- Lowercase hexadecimal digits of a value, most significant first. -/
def hexDigits (v : Nat) : List Char :=
  Nat.toDigits 16 v

/-- Python style hex rendering of a value: 0x followed by the lowercase
hexadecimal digits with no leading zeros. -/
def pyHex (v : Nat) : String :=
  "0x" ++ String.mk (hexDigits v)

/-- Value of one hexadecimal digit character. -/
def hexDigitVal (c : Char) : Nat :=
  if c.toNat ≥ 97 then c.toNat - 87
  else if c.toNat ≥ 65 then c.toNat - 55
  else c.toNat - 48

/-- Parse a python style hex string such as 0x43554549 back to a value. -/
def parseHex (s : String) : Nat :=
  let l := s.toList
  let l := if l.take 2 = ['0', 'x'] then l.drop 2 else l
  l.foldl (fun acc c => 16 * acc + hexDigitVal c) 0

/-- Read cursor over a bit string.  Modelled from the spec: the bitn.BitBin
class is sequential bit-level access over an immutable buffer; a read of n
bits fails with BufferUnderrun when fewer than n bits remain, and the
number of unconsumed bits (the idx attribute of the source) is observable
for conditional-presence checks.  The model keeps exactly the unconsumed
bits, so idx is the length of the list. -/
abbrev BitBin := Bits

/-- Read an unsigned integer of the given bit width. -/
def BitBin.asint (b : BitBin) (n : Nat) : Except Err (Nat × BitBin) :=
  if n ≤ b.length then .ok (bitsToNat (b.take n), b.drop n) else .error .bufferUnderrun

/-- Read a single bit as a boolean flag. -/
def BitBin.asflag (b : BitBin) : Except Err (Bool × BitBin) :=
  match b with
  | [] => .error .bufferUnderrun
  | x :: rest => .ok (x, rest)

/-- Read n bits and render them as a python style hex string. -/
def BitBin.ashex (b : BitBin) (n : Nat) : Except Err (String × BitBin) :=
  if n ≤ b.length then .ok (pyHex (bitsToNat (b.take n)), b.drop n)
  else .error .bufferUnderrun

/-- Read n bits and decode them as a best-effort string. -/
def BitBin.asdecodedhex (b : BitBin) (n : Nat) : Except Err (String × BitBin) :=
  if n ≤ b.length then .ok (decodeAscii (bitsToBytes (b.take n)), b.drop n)
  else .error .bufferUnderrun

/-- Read n bits and decode them as a best-effort string, where the width is
an integer expression of the source; a negative requested width is a read
failure.  Modelled from the spec: the only failure mode of a bit-level read
is BufferUnderrun. -/
def BitBin.asdecodedhexI (b : BitBin) (n : Int) : Except Err (String × BitBin) :=
  if n < 0 then .error .bufferUnderrun else b.asdecodedhex n.toNat

/-- Read an unsigned integer where the width is an integer expression of
the source; a negative requested width is a read failure. -/
def BitBin.asintI (b : BitBin) (n : Int) : Except Err (Nat × BitBin) :=
  if n < 0 then .error .bufferUnderrun else b.asint n.toNat

/-- Read n bits as a 90 kHz tick count and return seconds as a rational. -/
def BitBin.as90k (b : BitBin) (n : Nat) : Except Err (Rat × BitBin) :=
  if n ≤ b.length then .ok ((bitsToNat (b.take n) : Rat) / 90000, b.drop n)
  else .error .bufferUnderrun

/-- Advance the cursor by n bits without materializing a value. -/
def BitBin.forward (b : BitBin) (n : Nat) : Except Err BitBin :=
  if n ≤ b.length then .ok (b.drop n) else .error .bufferUnderrun

/-- Write cursor accumulating a bit string.  Modelled from the spec: the
bitn.NBin class mirrors each read operation, and skip on the write side
emits zero-filled filler bits, matching the reserved-bit convention. -/
structure NBin where
  bits : Bits
deriving DecidableEq, Repr

/-- Append an unsigned integer of the given bit width. -/
def NBin.add_int (nb : NBin) (v : Nat) (n : Nat) : NBin :=
  ⟨nb.bits ++ natToBits v n⟩

/-- Append a single flag bit. -/
def NBin.add_flag (nb : NBin) (v : Bool) : NBin :=
  ⟨nb.bits ++ [v]⟩

/-- Append the value of a hex string using the given bit width. -/
def NBin.add_hex (nb : NBin) (s : String) (n : Nat) : NBin :=
  nb.add_int (parseHex s) n

/-- Skip n bits on the write side, emitting zero filler bits. -/
def NBin.forward (nb : NBin) (n : Nat) : NBin :=
  ⟨nb.bits ++ List.replicate n false⟩

theorem asint_ok {b : BitBin} {n v : Nat} {b' : BitBin}
    (h : b.asint n = .ok (v, b')) :
    b = natToBits v n ++ b' ∧ v < 2 ^ n ∧ b' = b.drop n ∧ n ≤ b.length := by
  unfold BitBin.asint at h
  split at h
  case isTrue hle =>
    have hv : v = bitsToNat (b.take n) := by
      have := congrArg (fun e => match e with | .ok p => p.1 | .error _ => 0) h
      simpa using this.symm
    have hb' : b' = b.drop n := by
      have := congrArg (fun e => match e with | .ok p => p.2 | .error _ => []) h
      simpa using this.symm
    have hlen : (b.take n).length = n := by simp [Nat.min_eq_left hle]
    refine ⟨?_, ?_, hb', hle⟩
    · have h2 := natToBits_bitsToNat (b.take n)
      rw [hlen] at h2
      rw [hv, h2, hb', List.take_append_drop]
    · have h2 := bitsToNat_lt (b.take n)
      rw [hlen] at h2
      rw [hv]
      exact h2
  case isFalse => exact absurd h (by simp)

theorem asint_ok_val {b : BitBin} {n v : Nat} {b' : BitBin}
    (h : b.asint n = .ok (v, b')) : v = bitsToNat (b.take n) := by
  unfold BitBin.asint at h
  split at h
  · have := congrArg (fun e => match e with | .ok p => p.1 | .error _ => 0) h
    simpa using this.symm
  · exact absurd h (by simp)

theorem asflag_ok {b : BitBin} {v : Bool} {b' : BitBin}
    (h : b.asflag = .ok (v, b')) : b = v :: b' := by
  unfold BitBin.asflag at h
  match b, h with
  | x :: rest, h =>
    have h1 := congrArg (fun e => match e with | .ok p => p.1 | .error _ => false) h
    have h2 := congrArg (fun e => match e with | .ok p => p.2 | .error _ => []) h
    simp at h1 h2
    rw [← h1, ← h2]

theorem ashex_ok {b : BitBin} {n : Nat} {s : String} {b' : BitBin}
    (h : b.ashex n = .ok (s, b')) : b' = b.drop n ∧ n ≤ b.length := by
  unfold BitBin.ashex at h
  split at h
  case isTrue hle =>
    have := congrArg (fun e => match e with | .ok p => p.2 | .error _ => []) h
    exact ⟨by simpa using this.symm, hle⟩
  case isFalse => exact absurd h (by simp)

theorem asdecodedhex_ok {b : BitBin} {n : Nat} {s : String} {b' : BitBin}
    (h : b.asdecodedhex n = .ok (s, b')) : b' = b.drop n ∧ n ≤ b.length := by
  unfold BitBin.asdecodedhex at h
  split at h
  case isTrue hle =>
    have := congrArg (fun e => match e with | .ok p => p.2 | .error _ => []) h
    exact ⟨by simpa using this.symm, hle⟩
  case isFalse => exact absurd h (by simp)

theorem asdecodedhexI_ok {b : BitBin} {n : Int} {s : String} {b' : BitBin}
    (h : b.asdecodedhexI n = .ok (s, b')) :
    0 ≤ n ∧ b' = b.drop n.toNat ∧ n.toNat ≤ b.length := by
  unfold BitBin.asdecodedhexI at h
  split at h
  · exact absurd h (by simp)
  case isFalse hn =>
    have := asdecodedhex_ok h
    exact ⟨by omega, this.1, this.2⟩

theorem asintI_ok {b : BitBin} {n : Int} {v : Nat} {b' : BitBin}
    (h : b.asintI n = .ok (v, b')) :
    0 ≤ n ∧ b' = b.drop n.toNat ∧ n.toNat ≤ b.length := by
  unfold BitBin.asintI at h
  split at h
  · exact absurd h (by simp)
  case isFalse hn =>
    have := asint_ok h
    exact ⟨by omega, this.2.2.1, this.2.2.2⟩

theorem as90k_ok {b : BitBin} {n : Nat} {q : Rat} {b' : BitBin}
    (h : b.as90k n = .ok (q, b')) : b' = b.drop n ∧ n ≤ b.length := by
  unfold BitBin.as90k at h
  split at h
  case isTrue hle =>
    have := congrArg (fun e => match e with | .ok p => p.2 | .error _ => []) h
    exact ⟨by simpa using this.symm, hle⟩
  case isFalse => exact absurd h (by simp)

theorem forward_ok {b : BitBin} {n : Nat} {b' : BitBin}
    (h : b.forward n = .ok b') : b' = b.drop n ∧ n ≤ b.length := by
  unfold BitBin.forward at h
  split at h
  case isTrue hle =>
    have := congrArg (fun e => match e with | .ok p => p | .error _ => []) h
    exact ⟨by simpa using this.symm, hle⟩
  case isFalse => exact absurd h (by simp)

theorem asint_err {b : BitBin} {n : Nat} {e : Err} (h : b.asint n = .error e) :
    e = .bufferUnderrun := by
  unfold BitBin.asint at h
  split at h
  · exact absurd h (by simp)
  · have := congrArg (fun x => match x with | .error e => e | .ok _ => Err.outOfFuel) h
    simpa using this.symm

theorem asflag_err {b : BitBin} {e : Err} (h : b.asflag = .error e) :
    e = .bufferUnderrun := by
  unfold BitBin.asflag at h
  match b, h with
  | [], h =>
    have := congrArg (fun x => match x with | .error e => e | .ok _ => Err.outOfFuel) h
    simpa using this.symm

theorem ashex_err {b : BitBin} {n : Nat} {e : Err} (h : b.ashex n = .error e) :
    e = .bufferUnderrun := by
  unfold BitBin.ashex at h
  split at h
  · exact absurd h (by simp)
  · have := congrArg (fun x => match x with | .error e => e | .ok _ => Err.outOfFuel) h
    simpa using this.symm

theorem asdecodedhex_err {b : BitBin} {n : Nat} {e : Err}
    (h : b.asdecodedhex n = .error e) : e = .bufferUnderrun := by
  unfold BitBin.asdecodedhex at h
  split at h
  · exact absurd h (by simp)
  · have := congrArg (fun x => match x with | .error e => e | .ok _ => Err.outOfFuel) h
    simpa using this.symm

theorem asdecodedhexI_err {b : BitBin} {n : Int} {e : Err}
    (h : b.asdecodedhexI n = .error e) : e = .bufferUnderrun := by
  unfold BitBin.asdecodedhexI at h
  split at h
  · have := congrArg (fun x => match x with | .error e => e | .ok _ => Err.outOfFuel) h
    simpa using this.symm
  · exact asdecodedhex_err h

theorem asintI_err {b : BitBin} {n : Int} {e : Err}
    (h : b.asintI n = .error e) : e = .bufferUnderrun := by
  unfold BitBin.asintI at h
  split at h
  · have := congrArg (fun x => match x with | .error e => e | .ok _ => Err.outOfFuel) h
    simpa using this.symm
  · exact asint_err h

/-- Device restrictions lookup table.  Modelled from the spec: the 2-bit
device_restrictions code maps through a 4-entry lookup table
(threefive.segmentation.table20, not under src/). -/
def table20 : List String :=
  ["Restrict Group 0", "Restrict Group 1", "Restrict Group 2", "None"]

/-- Closed table of known segmentation type ids with human-readable labels.
Modelled from the spec: threefive.segmentation.table22 is not under src/;
the spec describes it as the closed set of known segmentation-type codes
with labels such as Program Start and Chapter End, containing in
particular the four sub-segment-bearing codes 0x34, 0x36, 0x38, 0x3A. -/
def table22 : List (Nat × String) :=
  [(0x00, "Restriction on SCTE35"), (0x01, "Content Identification"),
   (0x10, "Program Start"), (0x11, "Program End"),
   (0x12, "Program Early Termination"), (0x13, "Program Breakaway"),
   (0x14, "Program Resumption"), (0x15, "Program Runover Planned"),
   (0x16, "Program Runover Unplanned"), (0x17, "Program Overlap Start"),
   (0x18, "Program Blackout Override"), (0x19, "Program Start In Progress"),
   (0x20, "Chapter Start"), (0x21, "Chapter End"),
   (0x22, "Break Start"), (0x23, "Break End"),
   (0x24, "Opening Credit Start"), (0x25, "Opening Credit End"),
   (0x26, "Closing Credit Start"), (0x27, "Closing Credit End"),
   (0x30, "Provider Advertisement Start"), (0x31, "Provider Advertisement End"),
   (0x32, "Distributor Advertisement Start"),
   (0x33, "Distributor Advertisement End"),
   (0x34, "Provider Placement Opportunity Start"),
   (0x35, "Provider Placement Opportunity End"),
   (0x36, "Distributor Placement Opportunity Start"),
   (0x37, "Distributor Placement Opportunity End"),
   (0x38, "Provider Overlay Placement Opportunity Start"),
   (0x39, "Provider Overlay Placement Opportunity End"),
   (0x3A, "Distributor Overlay Placement Opportunity Start"),
   (0x3B, "Distributor Overlay Placement Opportunity End"),
   (0x40, "Unscheduled Event Start"), (0x41, "Unscheduled Event End"),
   (0x50, "Network Start"), (0x51, "Network End")]

/-- Polymorphic UPID payload value.  String-valued decoders yield str;
the _uri decoder yields pyNone for a zero declared length; the labeled
constructor stands for the python f-string Label:value wrapping; atsc and
mpu are the two record-shaped payloads and mid the nested sequence. -/
inductive Upid where
  | pyNone : Upid
  | str : String → Upid
  | labeled : String → Upid → Upid
  | atsc : Nat → Nat → Nat → Nat → String → Upid
  | mpu : Nat → Nat → Upid
  | mid : List Upid → Upid

/-- UPID decoder _uri: a raw decoded string of upid_length bytes, or
python None when the declared length is zero. -/
def SegmentationDescriptor.uri (bb : BitBin) (upid_length : Nat) :
    Except Err (Upid × BitBin) :=
  if upid_length > 0 then do
    let (s, bb) ← bb.asdecodedhex (upid_length <<< 3)
    .ok (.str s, bb)
  else .ok (.pyNone, bb)

/-- UPID decoder _air_id: a plain hex string of upid_length bytes. -/
def SegmentationDescriptor.air_id (bb : BitBin) (upid_length : Nat) :
    Except Err (Upid × BitBin) := do
  let (s, bb) ← bb.ashex (upid_length <<< 3)
  .ok (.str s, bb)

/-- UPID decoder _atsc: a structured record whose trailing decoded string
takes the remaining upid_length - 4 bytes, computed as a python integer. -/
def SegmentationDescriptor.atsc (bb : BitBin) (upid_length : Nat) :
    Except Err (Upid × BitBin) := do
  let (tsid, bb) ← bb.asint 16
  let (res, bb) ← bb.asint 2
  let (eod, bb) ← bb.asint 5
  let (ufor, bb) ← bb.asint 9
  let (cid, bb) ← bb.asdecodedhexI (((upid_length : Int) - 4) * 8)
  .ok (.atsc tsid res eod ufor cid, bb)

/-- UPID decoder _isan: a fixed template embedding four hex characters
sliced from the hex rendering of upid_length bytes. -/
def SegmentationDescriptor.isan (bb : BitBin) (upid_length : Nat) :
    Except Err (Upid × BitBin) := do
  let (middle, bb) ← bb.ashex (upid_length <<< 3)
  let mid4 := String.mk ((middle.toList.drop 2).take 4)
  .ok (.str ("0000-0000-" ++ mid4 ++ "-0000-Z-0000-0000-6"), bb)

/-- UPID decoder _mpu: a 32-bit format identifier and the remaining
upid_length * 8 - 32 bits, computed as a python integer, as an unsigned
private data value. -/
def SegmentationDescriptor.mpu (bb : BitBin) (upid_length : Nat) :
    Except Err (Upid × BitBin) := do
  let (fmt, bb) ← bb.asint 32
  let (priv, bb) ← bb.asintI ((upid_length : Int) * 8 - 32)
  .ok (.mpu fmt priv, bb)

/-- UPID decoder _eidr: a 16-bit prefix plus an 80-bit hex suffix, sliced
and reformatted; the declared upid_length is ignored by the source. -/
def SegmentationDescriptor.eidr (bb : BitBin) (upid_length : Nat) :
    Except Err (Upid × BitBin) := do
  let (pre, bb) ← bb.asint 16
  let (post, bb) ← bb.ashex 80
  let l := post.toList
  let s1 := String.mk ((l.drop 2).take 4)
  let s2 := String.mk ((l.drop 6).take 4)
  let s3 := String.mk ((l.drop 10).take 4)
  let s4 := String.mk ((l.drop 14).take 4)
  .ok (.str ("10." ++ toString pre ++ "/" ++ s1 ++ "-" ++ s2 ++ "-" ++ s3
      ++ "-" ++ s4 ++ "-T"), bb)

/-- Drop the first occurrence of the character x, as the python idiom
join of split on x with maxsplit one. -/
def removeFirstX : List Char → List Char
  | [] => []
  | c :: l => if c = 'x' then l else c :: removeFirstX l

/-- Group a character list into chunks of 8, rendered as strings. -/
def chunkJoin : List Char → List String
  | [] => []
  | c :: l => String.mk ((c :: l).take 8) :: chunkJoin (l.drop 7)
termination_by l => l.length
decreasing_by simp; omega

/-- UPID decoder _umid: the hex rendering of upid_length bytes with the x
of the 0x prefix removed, regrouped into dot-separated 8-character
chunks. -/
def SegmentationDescriptor.umid (bb : BitBin) (upid_length : Nat) :
    Except Err (Upid × BitBin) := do
  let (h, bb) ← bb.ashex (upid_length <<< 3)
  let pre := removeFirstX h.toList
  .ok (.str (String.intercalate "." (chunkJoin pre)), bb)

/-- The body of the UPID dispatch of
SegmentationDescriptor._set_segmentation_upid, parameterized by the _mid
loop it may invoke for type 0x0D: the source dict maps the fourteen known
upid_type codes to label and decoder; every labeled result except type
0x09 is wrapped as Label:value; an unmapped type falls through to the
empty string. -/
def dispatchBody (midf : BitBin → Int → Except Err (List Upid × BitBin))
    (bb : BitBin) (upid_type upid_length : Nat) :
    Except Err (Upid × BitBin) :=
  if upid_type = 0x02 then do
    let (u, bb) ← SegmentationDescriptor.uri bb upid_length
    .ok (.labeled "Deprecated" u, bb)
  else if upid_type = 0x03 then do
    let (u, bb) ← SegmentationDescriptor.uri bb upid_length
    .ok (.labeled "Ad ID" u, bb)
  else if upid_type = 0x04 then do
    let (u, bb) ← SegmentationDescriptor.umid bb upid_length
    .ok (.labeled "UMID" u, bb)
  else if upid_type = 0x05 then do
    let (u, bb) ← SegmentationDescriptor.isan bb upid_length
    .ok (.labeled "ISAN" u, bb)
  else if upid_type = 0x06 then do
    let (u, bb) ← SegmentationDescriptor.isan bb upid_length
    .ok (.labeled "ISAN" u, bb)
  else if upid_type = 0x07 then do
    let (u, bb) ← SegmentationDescriptor.uri bb upid_length
    .ok (.labeled "TID" u, bb)
  else if upid_type = 0x08 then do
    let (u, bb) ← SegmentationDescriptor.air_id bb upid_length
    .ok (.labeled "AiringID" u, bb)
  else if upid_type = 0x09 then do
    let (u, bb) ← SegmentationDescriptor.uri bb upid_length
    .ok (u, bb)
  else if upid_type = 0x0A then do
    let (u, bb) ← SegmentationDescriptor.eidr bb upid_length
    .ok (.labeled "EIDR" u, bb)
  else if upid_type = 0x0B then do
    let (u, bb) ← SegmentationDescriptor.atsc bb upid_length
    .ok (.labeled "ATSC" u, bb)
  else if upid_type = 0x0C then do
    let (u, bb) ← SegmentationDescriptor.mpu bb upid_length
    .ok (.labeled "MPU" u, bb)
  else if upid_type = 0x0D then do
    let (us, bb) ← midf bb ((upid_length : Int) * 8)
    .ok (.labeled "MID" (.mid us), bb)
  else if upid_type = 0x0E then do
    let (u, bb) ← SegmentationDescriptor.uri bb upid_length
    .ok (.labeled "ADS Info" u, bb)
  else if upid_type = 0x0F then do
    let (u, bb) ← SegmentationDescriptor.uri bb upid_length
    .ok (.labeled "URI" u, bb)
  else .ok (.str "", bb)

/-- One iteration shape of the while loop of SegmentationDescriptor._mid,
parameterized by the dispatch and by the rest of the loop: read a nested
upid_type and upid_length, dispatch the nested payload, and decrement the
remaining-bit counter b_c by 16 plus upid_length * 8, until the counter
is exactly zero; the counter is a python integer and may go negative. -/
def midBody (dispatchf : BitBin → Nat → Nat → Except Err (Upid × BitBin))
    (midf : BitBin → Int → Except Err (List Upid × BitBin))
    (bb : BitBin) (b_c : Int) : Except Err (List Upid × BitBin) :=
  if b_c = 0 then .ok ([], bb)
  else do
    let (upid_type, bb) ← bb.asint 8
    let (upid_length, bb) ← bb.asint 8
    let (u, bb) ← dispatchf bb upid_type upid_length
    let (us, bb) ← midf bb (b_c - 16 - (upid_length : Int) * 8)
    .ok (u :: us, bb)

mutual

/-- SegmentationDescriptor._set_segmentation_upid with fuel modelling the
unbounded while loop of the nested _mid decoder. -/
def SegmentationDescriptor.set_segmentation_upid (fuel : Nat) (bb : BitBin)
    (upid_type upid_length : Nat) : Except Err (Upid × BitBin) :=
  match fuel with
  | 0 => .error .outOfFuel
  | fuel + 1 =>
    dispatchBody (SegmentationDescriptor.mid fuel) bb upid_type upid_length

/-- The while loop of SegmentationDescriptor._mid with fuel. -/
def SegmentationDescriptor.mid (fuel : Nat) (bb : BitBin) (b_c : Int) :
    Except Err (List Upid × BitBin) :=
  match fuel with
  | 0 => .error .outOfFuel
  | fuel + 1 =>
    midBody (SegmentationDescriptor.set_segmentation_upid fuel)
      (SegmentationDescriptor.mid fuel) bb b_c

end

/-- Serialize tag and descriptor_length, 8 bits each; a python None in
either attribute is a TypeError. -/
def SpliceDescriptor.encode_meta (tag descriptor_length : Option Nat)
    (nbin : NBin) : Except Err NBin :=
  match tag, descriptor_length with
  | some t, some l => .ok ((nbin.add_int t 8).add_int l 8)
  | _, _ => .error .typeError

/-- Serialize the identifier: the attribute is overwritten with the fixed
hex string 0x43554549 and that value is written as 32 bits.  The returned
string is the new identifier attribute value. -/
def SpliceDescriptor.encode_id (nbin : NBin) : String × NBin :=
  ("0x43554549", nbin.add_hex "0x43554549" 32)

/-- The base class encode: a fresh write cursor, encode_meta, encode_id,
and the cursor is returned.  The result carries the new identifier
attribute value, the accumulated buffer, and the python return value,
which for the base class is the buffer itself. -/
def SpliceDescriptor.encode (tag descriptor_length : Option Nat) :
    Except Err (String × NBin × Option NBin) := do
  let nbin ← SpliceDescriptor.encode_meta tag descriptor_length ⟨[]⟩
  let (ident, nbin) := SpliceDescriptor.encode_id nbin
  .ok (ident, nbin, some nbin)

/-- Parse the 32-bit splice descriptor identifier as a decoded string; a
mismatch with CUEI is only a stderr warning in the source, not modelled. -/
def SpliceDescriptor.parse_id (bitbin : BitBin) :
    Except Err (String × BitBin) :=
  bitbin.asdecodedhex 32

/-- Table 17 avail_descriptor state. -/
structure AvailDescriptor where
  tag : Option Nat := none
  descriptor_length : Option Nat := none
  identifier : Option String := none
  provider_avail_id : Option Nat := none
deriving DecidableEq, Repr

/-- Shared constructor header: with a nonempty byte slice, tag is byte 0,
descriptor_length is byte 1 and the remaining bytes are kept; a one-byte
slice is an IndexError; an empty slice leaves the fields unset. -/
def AvailDescriptor.init (bites : List Nat) :
    Except Err (AvailDescriptor × List Nat) :=
  match bites with
  | [] => .ok ({}, [])
  | [_] => .error .indexError
  | t :: l :: rest =>
    .ok ({ tag := some t, descriptor_length := some l }, rest)

/-- AvailDescriptor.encode: the base encode extended with the 32-bit
provider_avail_id; the accumulated buffer is printed to stderr but the
method returns python None. -/
def AvailDescriptor.encode (d : AvailDescriptor) :
    Except Err (AvailDescriptor × NBin × Option NBin) := do
  let (ident, nbin, _) ← SpliceDescriptor.encode d.tag d.descriptor_length
  let d := { d with identifier := some ident }
  match d.provider_avail_id with
  | none => .error .typeError
  | some v => .ok (d, nbin.add_int v 32, none)

/-- AvailDescriptor.decode: parse_id, a 32-bit provider_avail_id, then a
trailing call to self.encode.  The leftover cursor is returned for
round-trip statements. -/
def AvailDescriptor.decode (d : AvailDescriptor) (bites : List Nat) :
    Except Err (AvailDescriptor × BitBin) := do
  let bitbin : BitBin := bytesToBits bites
  let (ident, bitbin) ← SpliceDescriptor.parse_id bitbin
  let d := { d with identifier := some ident }
  let (pav, bitbin) ← bitbin.asint 32
  let d := { d with provider_avail_id := some pav }
  let (d, _, _) ← d.encode
  .ok (d, bitbin)

/-- Construct and decode an avail descriptor from a tagged byte slice. -/
def AvailDescriptor.full (bites : List Nat) :
    Except Err (AvailDescriptor × BitBin) := do
  let (d, rest) ← AvailDescriptor.init bites
  d.decode rest

/-- Table 18 DTMF_descriptor state. -/
structure DtmfDescriptor where
  tag : Option Nat := none
  descriptor_length : Option Nat := none
  identifier : Option String := none
  preroll : Option Nat := none
  dtmf_count : Option Nat := none
  dtmf_chars : List Char := []
deriving DecidableEq, Repr

/-- Constructor header for the DTMF variant. -/
def DtmfDescriptor.init (bites : List Nat) :
    Except Err (DtmfDescriptor × List Nat) :=
  match bites with
  | [] => .ok ({}, [])
  | [_] => .error .indexError
  | t :: l :: rest =>
    .ok ({ tag := some t, descriptor_length := some l }, rest)

/-- The decode while loop of the DTMF variant: d_c characters, each an
8-bit code point decoded as UTF-8; a byte outside ASCII is a
UnicodeDecodeError for a single byte. -/
def DtmfDescriptor.decode_loop (d_c : Nat) (chars : List Char)
    (bitbin : BitBin) : Except Err (List Char × BitBin) :=
  match d_c with
  | 0 => .ok (chars, bitbin)
  | d_c + 1 => do
    let (v, bitbin) ← bitbin.asint 8
    if v < 128 then
      DtmfDescriptor.decode_loop d_c (chars ++ [Char.ofNat v]) bitbin
    else .error .unicodeDecodeError

/-- The encode while loop of the DTMF variant: indices 0 up to dtmf_count
into dtmf_chars, each written back as an 8-bit code point; a missing index
is an IndexError. -/
def DtmfDescriptor.encode_go (chars : List Char) (d_c : Nat) :
    Nat → NBin → Except Err NBin
  | 0, nbin => .ok nbin
  | remaining + 1, nbin =>
    match chars[d_c]? with
    | none => .error .indexError
    | some c => DtmfDescriptor.encode_go chars (d_c + 1) remaining
        (nbin.add_int c.toNat 8)

/-- The loop entry: the while condition d_c lower than dtmf_count holds for
exactly count - d_c further iterations. -/
def DtmfDescriptor.encode_loop (chars : List Char) (d_c count : Nat)
    (nbin : NBin) : Except Err NBin :=
  DtmfDescriptor.encode_go chars d_c (count - d_c) nbin

/-- DtmfDescriptor.encode: base encode, preroll, the 3-bit dtmf_count, 5
zero filler bits, then the characters; returns python None. -/
def DtmfDescriptor.encode (d : DtmfDescriptor) :
    Except Err (DtmfDescriptor × NBin × Option NBin) := do
  let (ident, nbin, _) ← SpliceDescriptor.encode d.tag d.descriptor_length
  let d := { d with identifier := some ident }
  match d.preroll, d.dtmf_count with
  | some preroll, some count =>
    let nbin := nbin.add_int preroll 8
    let nbin := nbin.add_int count 3
    let nbin := nbin.forward 5
    let nbin ← DtmfDescriptor.encode_loop d.dtmf_chars 0 count nbin
    .ok (d, nbin, none)
  | _, _ => .error .typeError

/-- DtmfDescriptor.decode: parse_id, preroll, 3-bit count, 5 skipped bits,
the character loop, then a trailing call to self.encode. -/
def DtmfDescriptor.decode (d : DtmfDescriptor) (bites : List Nat) :
    Except Err (DtmfDescriptor × BitBin) := do
  let bitbin : BitBin := bytesToBits bites
  let (ident, bitbin) ← SpliceDescriptor.parse_id bitbin
  let d := { d with identifier := some ident }
  let (preroll, bitbin) ← bitbin.asint 8
  let d := { d with preroll := some preroll }
  let (count, bitbin) ← bitbin.asint 3
  let d := { d with dtmf_count := some count }
  let bitbin ← bitbin.forward 5
  let (chars, bitbin) ← DtmfDescriptor.decode_loop count d.dtmf_chars bitbin
  let d := { d with dtmf_chars := chars }
  let (d, _, _) ← d.encode
  .ok (d, bitbin)

/-- Construct and decode a DTMF descriptor from a tagged byte slice. -/
def DtmfDescriptor.full (bites : List Nat) :
    Except Err (DtmfDescriptor × BitBin) := do
  let (d, rest) ← DtmfDescriptor.init bites
  d.decode rest

/-- Table 25 time_descriptor state. -/
structure TimeDescriptor where
  tag : Option Nat := none
  descriptor_length : Option Nat := none
  identifier : Option String := none
  tai_seconds : Option Nat := none
  tai_ns : Option Nat := none
  utc_offset : Option Nat := none
deriving DecidableEq, Repr

/-- Constructor header for the time variant. -/
def TimeDescriptor.init (bites : List Nat) :
    Except Err (TimeDescriptor × List Nat) :=
  match bites with
  | [] => .ok ({}, [])
  | [_] => .error .indexError
  | t :: l :: rest =>
    .ok ({ tag := some t, descriptor_length := some l }, rest)

/-- TimeDescriptor.decode: parse_id then the 48-bit tai_seconds, 32-bit
tai_ns and 16-bit utc_offset; no trailing encode call. -/
def TimeDescriptor.decode (d : TimeDescriptor) (bites : List Nat) :
    Except Err (TimeDescriptor × BitBin) := do
  let bitbin : BitBin := bytesToBits bites
  let (ident, bitbin) ← SpliceDescriptor.parse_id bitbin
  let d := { d with identifier := some ident }
  let (s, bitbin) ← bitbin.asint 48
  let d := { d with tai_seconds := some s }
  let (ns, bitbin) ← bitbin.asint 32
  let d := { d with tai_ns := some ns }
  let (o, bitbin) ← bitbin.asint 16
  let d := { d with utc_offset := some o }
  .ok (d, bitbin)

/-- TimeDescriptor.encode: base encode then the three fields; returns
python None. -/
def TimeDescriptor.encode (d : TimeDescriptor) :
    Except Err (TimeDescriptor × NBin × Option NBin) := do
  let (ident, nbin, _) ← SpliceDescriptor.encode d.tag d.descriptor_length
  let d := { d with identifier := some ident }
  match d.tai_seconds, d.tai_ns, d.utc_offset with
  | some s, some ns, some o =>
    .ok (d, ((nbin.add_int s 48).add_int ns 32).add_int o 16, none)
  | _, _, _ => .error .typeError

/-- Construct and decode a time descriptor from a tagged byte slice. -/
def TimeDescriptor.full (bites : List Nat) :
    Except Err (TimeDescriptor × BitBin) := do
  let (d, rest) ← TimeDescriptor.init bites
  d.decode rest

/-- One component entry of the audio variant; the source stores a dict
with keys component_tag, ISO_code=, bit_stream_mode, num_channels and
full_srvc_audio. -/
structure AudioComp where
  component_tag : Nat
  iso_code : Nat
  bit_stream_mode : Nat
  num_channels : Nat
  full_srvc_audio : Bool
deriving DecidableEq, Repr

/-- Table 26 audio_descriptor state. -/
structure AudioDescriptor where
  tag : Option Nat := none
  descriptor_length : Option Nat := none
  identifier : Option String := none
  components : List AudioComp := []
  audio_count : Option Nat := none
deriving DecidableEq, Repr

/-- Constructor header for the audio variant. -/
def AudioDescriptor.init (bites : List Nat) :
    Except Err (AudioDescriptor × List Nat) :=
  match bites with
  | [] => .ok ({}, [])
  | [_] => .error .indexError
  | t :: l :: rest =>
    .ok ({ tag := some t, descriptor_length := some l }, rest)

/-- The decode while loop of the audio variant: a_c component entries of
8, 24, 3, 4 and 1 bits. -/
def AudioDescriptor.decode_loop (a_c : Nat) (comps : List AudioComp)
    (bitbin : BitBin) : Except Err (List AudioComp × BitBin) :=
  match a_c with
  | 0 => .ok (comps, bitbin)
  | a_c + 1 => do
    let (ct, bitbin) ← bitbin.asint 8
    let (iso, bitbin) ← bitbin.asint 24
    let (bsm, bitbin) ← bitbin.asint 3
    let (nc, bitbin) ← bitbin.asint 4
    let (fs, bitbin) ← bitbin.asflag
    let comp : AudioComp := ⟨ct, iso, bsm, nc, fs⟩
    AudioDescriptor.decode_loop a_c (comps ++ [comp]) bitbin

/-- The encode while loop of the audio variant: indices 0 up to
audio_count into components, each written back field by field. -/
def AudioDescriptor.encode_go (comps : List AudioComp) (a_c : Nat) :
    Nat → NBin → Except Err NBin
  | 0, nbin => .ok nbin
  | remaining + 1, nbin =>
    match comps[a_c]? with
    | none => .error .indexError
    | some c =>
      AudioDescriptor.encode_go comps (a_c + 1) remaining
        (((((nbin.add_int c.component_tag 8).add_int c.iso_code
          24).add_int c.bit_stream_mode 3).add_int c.num_channels
          4).add_flag c.full_srvc_audio)

/-- The loop entry: the while condition a_c lower than audio_count holds
for exactly count - a_c further iterations. -/
def AudioDescriptor.encode_loop (comps : List AudioComp) (a_c count : Nat)
    (nbin : NBin) : Except Err NBin :=
  AudioDescriptor.encode_go comps a_c (count - a_c) nbin

/-- AudioDescriptor.decode: parse_id, the 4-bit audio_count, 4 skipped
bits, then the component loop; no trailing encode call. -/
def AudioDescriptor.decode (d : AudioDescriptor) (bites : List Nat) :
    Except Err (AudioDescriptor × BitBin) := do
  let bitbin : BitBin := bytesToBits bites
  let (ident, bitbin) ← SpliceDescriptor.parse_id bitbin
  let d := { d with identifier := some ident }
  let (count, bitbin) ← bitbin.asint 4
  let d := { d with audio_count := some count }
  let bitbin ← bitbin.forward 4
  let (comps, bitbin) ← AudioDescriptor.decode_loop count d.components bitbin
  let d := { d with components := comps }
  .ok (d, bitbin)

/-- AudioDescriptor.encode: base encode, the 4-bit audio_count, 4 zero
filler bits, then the component loop; returns python None. -/
def AudioDescriptor.encode (d : AudioDescriptor) :
    Except Err (AudioDescriptor × NBin × Option NBin) := do
  let (ident, nbin, _) ← SpliceDescriptor.encode d.tag d.descriptor_length
  let d := { d with identifier := some ident }
  match d.audio_count with
  | none => .error .typeError
  | some count =>
    let nbin := nbin.add_int count 4
    let nbin := nbin.forward 4
    let nbin ← AudioDescriptor.encode_loop d.components 0 count nbin
    .ok (d, nbin, none)

/-- Construct and decode an audio descriptor from a tagged byte slice. -/
def AudioDescriptor.full (bites : List Nat) :
    Except Err (AudioDescriptor × BitBin) := do
  let (d, rest) ← AudioDescriptor.init bites
  d.decode rest

/-- One component entry of the segmentation variant; the source stores a
dict with keys component_tag and pts_offset. -/
structure SegComp where
  component_tag : Nat
  pts_offset : Rat
deriving DecidableEq, Repr

/-- Table 19 segmentation_descriptor state; the source initializes every
variant field to python None and the components list to empty. -/
structure SegmentationDescriptor where
  tag : Option Nat := none
  descriptor_length : Option Nat := none
  identifier : Option String := none
  segmentation_event_id : Option String := none
  segmentation_event_cancel_indicator : Option Bool := none
  component_count : Option Nat := none
  components : List SegComp := []
  program_segmentation_flag : Option Bool := none
  segmentation_duration_flag : Option Bool := none
  delivery_not_restricted_flag : Option Bool := none
  web_delivery_allowed_flag : Option Bool := none
  no_regional_blackout_flag : Option Bool := none
  archive_allowed_flag : Option Bool := none
  device_restrictions : Option String := none
  segmentation_duration : Option Rat := none
  segmentation_message : Option String := none
  segmentation_upid_type : Option Nat := none
  segmentation_upid_length : Option Nat := none
  segmentation_upid : Option Upid := none
  segmentation_type_id : Option Nat := none
  segment_num : Option Nat := none
  segments_expected : Option Nat := none
  sub_segment_num : Option Nat := none
  sub_segments_expected : Option Nat := none

/-- Constructor header for the segmentation variant. -/
def SegmentationDescriptor.init (bites : List Nat) :
    Except Err (SegmentationDescriptor × List Nat) :=
  match bites with
  | [] => .ok ({}, [])
  | [_] => .error .indexError
  | t :: l :: rest =>
    .ok ({ tag := some t, descriptor_length := some l }, rest)

/-- SegmentationDescriptor._set_flags: three 1-bit flags; when
delivery_not_restricted_flag is false, three more 1-bit flags and a 2-bit
device restrictions code looked up in table20, and otherwise 5 skipped
reserved bits.  The 2-bit read is always below the 4-entry table length,
so the python list indexing is total. -/
def SegmentationDescriptor.set_flags (d : SegmentationDescriptor)
    (bitbin : BitBin) : Except Err (SegmentationDescriptor × BitBin) := do
  let (psf, bitbin) ← bitbin.asflag
  let d := { d with program_segmentation_flag := some psf }
  let (sdf, bitbin) ← bitbin.asflag
  let d := { d with segmentation_duration_flag := some sdf }
  let (dnr, bitbin) ← bitbin.asflag
  let d := { d with delivery_not_restricted_flag := some dnr }
  if !dnr then do
    let (w, bitbin) ← bitbin.asflag
    let d := { d with web_delivery_allowed_flag := some w }
    let (nrb, bitbin) ← bitbin.asflag
    let d := { d with no_regional_blackout_flag := some nrb }
    let (arch, bitbin) ← bitbin.asflag
    let d := { d with archive_allowed_flag := some arch }
    let (v, bitbin) ← bitbin.asint 2
    let d := { d with device_restrictions := some (table20.getD v "") }
    .ok (d, bitbin)
  else do
    let bitbin ← bitbin.forward 5
    .ok (d, bitbin)

/-- The while loop of SegmentationDescriptor._set_components: c_c entries
of an 8-bit component tag, 7 skipped bits and a 33-bit 90 kHz offset. -/
def SegmentationDescriptor.components_loop (c_c : Nat)
    (comps : List SegComp) (bitbin : BitBin) :
    Except Err (List SegComp × BitBin) :=
  match c_c with
  | 0 => .ok (comps, bitbin)
  | c_c + 1 => do
    let (ct, bitbin) ← bitbin.asint 8
    let bitbin ← bitbin.forward 7
    let (po, bitbin) ← bitbin.as90k 33
    let comp : SegComp := ⟨ct, po⟩
    SegmentationDescriptor.components_loop c_c (comps ++ [comp]) bitbin

/-- SegmentationDescriptor._set_components: an 8-bit component_count then
that many component entries. -/
def SegmentationDescriptor.set_components (d : SegmentationDescriptor)
    (bitbin : BitBin) : Except Err (SegmentationDescriptor × BitBin) := do
  let (c_c, bitbin) ← bitbin.asint 8
  let d := { d with component_count := some c_c }
  let (comps, bitbin) ← SegmentationDescriptor.components_loop c_c
    d.components bitbin
  .ok ({ d with components := comps }, bitbin)

/-- The four sub-segment-bearing segmentation type ids, compared against
the possibly-unset segmentation_type_id attribute; python None is not a
member of the list. -/
def subSegmentBearing (tid : Option Nat) : Bool :=
  tid == some 0x34 || tid == some 0x36 || tid == some 0x38 || tid == some 0x3A

/-- SegmentationDescriptor._set_segments: 8-bit segment_num and
segments_expected; for the four sub-segment-bearing type ids, the 8-bit
sub_segment_num and sub_segments_expected are read when at least 16
unconsumed bits remain and are both set to 0 otherwise; for any other
type id the two sub-segment attributes are left untouched. -/
def SegmentationDescriptor.set_segments (d : SegmentationDescriptor)
    (bitbin : BitBin) : Except Err (SegmentationDescriptor × BitBin) := do
  let (sn, bitbin) ← bitbin.asint 8
  let d := { d with segment_num := some sn }
  let (se, bitbin) ← bitbin.asint 8
  let d := { d with segments_expected := some se }
  if subSegmentBearing d.segmentation_type_id then
    if 16 ≤ bitbin.length then do
      let (ssn, bitbin) ← bitbin.asint 8
      let d := { d with sub_segment_num := some ssn }
      let (sse, bitbin) ← bitbin.asint 8
      let d := { d with sub_segments_expected := some sse }
      .ok (d, bitbin)
    else
      let d := { d with sub_segment_num := some 0 }
      let d := { d with sub_segments_expected := some 0 }
      .ok (d, bitbin)
  else .ok (d, bitbin)

/-- SegmentationDescriptor._set_segmentation: the optional 40-bit
duration, the 8-bit upid type and length, the UPID dispatch, the 8-bit
segmentation_type_id, and for a type id present in table22 the label and
the segment fields.  The dispatch fuel is the remaining bit count plus 3,
which the fuel sufficiency theorem shows is never exhausted. -/
def SegmentationDescriptor.set_segmentation (d : SegmentationDescriptor)
    (bitbin : BitBin) : Except Err (SegmentationDescriptor × BitBin) := do
  let (d, bitbin) ←
    match d.segmentation_duration_flag with
    | some true => do
      let (dur, bitbin) ← bitbin.as90k 40
      pure ({ d with segmentation_duration := some dur }, bitbin)
    | _ => pure (d, bitbin)
  let (ut, bitbin) ← bitbin.asint 8
  let d := { d with segmentation_upid_type := some ut }
  let (ul, bitbin) ← bitbin.asint 8
  let d := { d with segmentation_upid_length := some ul }
  let (u, bitbin) ← SegmentationDescriptor.set_segmentation_upid
    (bitbin.length + 3) bitbin ut ul
  let d := { d with segmentation_upid := some u }
  let (tid, bitbin) ← bitbin.asint 8
  let d := { d with segmentation_type_id := some tid }
  match table22.lookup tid with
  | some msg =>
    let d := { d with segmentation_message := some msg }
    d.set_segments bitbin
  | none => .ok (d, bitbin)

/-- SegmentationDescriptor.decode: parse_id, the 32-bit event id as hex,
the cancel indicator bit and 7 skipped bits; when the cancel indicator is
set decoding stops there, and otherwise the flags, the optional component
loop and the segmentation fields follow. -/
def SegmentationDescriptor.decode (d : SegmentationDescriptor)
    (bites : List Nat) : Except Err (SegmentationDescriptor × BitBin) := do
  let bitbin : BitBin := bytesToBits bites
  let (ident, bitbin) ← SpliceDescriptor.parse_id bitbin
  let d := { d with identifier := some ident }
  let (eid, bitbin) ← bitbin.ashex 32
  let d := { d with segmentation_event_id := some eid }
  let (cancel, bitbin) ← bitbin.asflag
  let d := { d with segmentation_event_cancel_indicator := some cancel }
  let bitbin ← bitbin.forward 7
  if cancel then .ok (d, bitbin)
  else do
    let (d, bitbin) ← d.set_flags bitbin
    let (d, bitbin) ←
      match d.program_segmentation_flag with
      | some false => d.set_components bitbin
      | _ => pure (d, bitbin)
    d.set_segmentation bitbin

/-- Construct and decode a segmentation descriptor from a tagged byte
slice. -/
def SegmentationDescriptor.full (bites : List Nat) :
    Except Err (SegmentationDescriptor × BitBin) := do
  let (d, rest) ← SegmentationDescriptor.init bites
  d.decode rest

/-- Result of splice_descriptor: one of the five decoded variants, or the
sentinel standing for the python False returned on an unknown tag. -/
inductive Spliced where
  | availD : AvailDescriptor → Spliced
  | dtmfD : DtmfDescriptor → Spliced
  | segD : SegmentationDescriptor → Spliced
  | timeD : TimeDescriptor → Spliced
  | audioD : AudioDescriptor → Spliced
  | sentinel : Spliced

/-- The descriptor_map dispatch of splice_descriptor: byte 0 is the tag;
tags 0 to 4 construct and decode the matching variant and an unknown tag
returns the sentinel; an empty slice is an IndexError. -/
def splice_descriptor (bites : List Nat) : Except Err Spliced :=
  match bites with
  | [] => .error .indexError
  | t :: _ =>
    if t = 0 then (AvailDescriptor.full bites).map (fun p => .availD p.1)
    else if t = 1 then (DtmfDescriptor.full bites).map (fun p => .dtmfD p.1)
    else if t = 2 then
      (SegmentationDescriptor.full bites).map (fun p => .segD p.1)
    else if t = 3 then (TimeDescriptor.full bites).map (fun p => .timeD p.1)
    else if t = 4 then (AudioDescriptor.full bites).map (fun p => .audioD p.1)
    else .ok .sentinel

theorem bind_ok_inv {α β : Type} {x : Except Err α} {f : α → Except Err β}
    {b : β} (h : x >>= f = .ok b) : ∃ a, x = .ok a ∧ f a = .ok b := by
  cases x with
  | ok a => exact ⟨a, rfl, h⟩
  | error e =>
    have : (Except.error e : Except Err α) >>= f = .error e := rfl
    rw [this] at h
    exact absurd h (by simp)

theorem bind_err_inv {α β : Type} {x : Except Err α} {f : α → Except Err β}
    {e : Err} (h : x >>= f = .error e) :
    x = .error e ∨ ∃ a, x = .ok a ∧ f a = .error e := by
  cases x with
  | ok a => exact .inr ⟨a, rfl, h⟩
  | error e2 =>
    have : (Except.error e2 : Except Err α) >>= f = .error e2 := rfl
    rw [this] at h
    have he : e2 = e := by
      have := congrArg (fun x => match x with | .error e => e | .ok _ => e2) h
      simpa using this
    exact .inl (he ▸ rfl)

theorem shiftl3 (l : Nat) : l <<< 3 = 8 * l := by
  rw [Nat.shiftLeft_eq]
  ring

theorem uri_ok {bb : BitBin} {l : Nat} {u : Upid} {bb' : BitBin}
    (h : SegmentationDescriptor.uri bb l = .ok (u, bb')) :
    bb' = bb.drop (8 * l) ∧ 8 * l ≤ bb.length := by
  unfold SegmentationDescriptor.uri at h
  split at h
  case isTrue hl =>
    obtain ⟨⟨s, bb1⟩, hd, hf⟩ := bind_ok_inv h
    have := asdecodedhex_ok hd
    rw [shiftl3] at this
    have hbb : bb' = bb1 := by
      have := congrArg (fun x => match x with | Except.ok p => p.2 | .error _ => []) hf
      simpa using this.symm
    exact ⟨hbb ▸ this.1, this.2⟩
  case isFalse hl =>
    have hl0 : l = 0 := by omega
    have hbb : bb' = bb := by
      have := congrArg (fun x => match x with | Except.ok p => p.2 | .error _ => []) h
      simpa using this.symm
    subst hl0
    simpa using hbb

theorem uri_err {bb : BitBin} {l : Nat} {e : Err}
    (h : SegmentationDescriptor.uri bb l = .error e) : e = .bufferUnderrun := by
  unfold SegmentationDescriptor.uri at h
  split at h
  case isTrue hl =>
    rcases bind_err_inv h with hd | ⟨⟨s, bb1⟩, hd, hf⟩
    · exact asdecodedhex_err hd
    · exact absurd hf (by simp)
  case isFalse hl => exact absurd h (by simp)

theorem air_id_ok {bb : BitBin} {l : Nat} {u : Upid} {bb' : BitBin}
    (h : SegmentationDescriptor.air_id bb l = .ok (u, bb')) :
    bb' = bb.drop (8 * l) ∧ 8 * l ≤ bb.length := by
  unfold SegmentationDescriptor.air_id at h
  obtain ⟨⟨s, bb1⟩, hd, hf⟩ := bind_ok_inv h
  have := ashex_ok hd
  rw [shiftl3] at this
  have hbb : bb' = bb1 := by
    have := congrArg (fun x => match x with | Except.ok p => p.2 | .error _ => []) hf
    simpa using this.symm
  exact ⟨hbb ▸ this.1, this.2⟩

theorem air_id_err {bb : BitBin} {l : Nat} {e : Err}
    (h : SegmentationDescriptor.air_id bb l = .error e) : e = .bufferUnderrun := by
  unfold SegmentationDescriptor.air_id at h
  rcases bind_err_inv h with hd | ⟨⟨s, bb1⟩, hd, hf⟩
  · exact ashex_err hd
  · exact absurd hf (by simp)

theorem isan_ok {bb : BitBin} {l : Nat} {u : Upid} {bb' : BitBin}
    (h : SegmentationDescriptor.isan bb l = .ok (u, bb')) :
    bb' = bb.drop (8 * l) ∧ 8 * l ≤ bb.length := by
  unfold SegmentationDescriptor.isan at h
  obtain ⟨⟨s, bb1⟩, hd, hf⟩ := bind_ok_inv h
  have := ashex_ok hd
  rw [shiftl3] at this
  have hbb : bb' = bb1 := by
    have := congrArg (fun x => match x with | Except.ok p => p.2 | .error _ => []) hf
    simpa using this.symm
  exact ⟨hbb ▸ this.1, this.2⟩

theorem isan_err {bb : BitBin} {l : Nat} {e : Err}
    (h : SegmentationDescriptor.isan bb l = .error e) : e = .bufferUnderrun := by
  unfold SegmentationDescriptor.isan at h
  rcases bind_err_inv h with hd | ⟨⟨s, bb1⟩, hd, hf⟩
  · exact ashex_err hd
  · exact absurd hf (by simp)

theorem umid_ok {bb : BitBin} {l : Nat} {u : Upid} {bb' : BitBin}
    (h : SegmentationDescriptor.umid bb l = .ok (u, bb')) :
    bb' = bb.drop (8 * l) ∧ 8 * l ≤ bb.length := by
  unfold SegmentationDescriptor.umid at h
  obtain ⟨⟨s, bb1⟩, hd, hf⟩ := bind_ok_inv h
  have := ashex_ok hd
  rw [shiftl3] at this
  have hbb : bb' = bb1 := by
    have := congrArg (fun x => match x with | Except.ok p => p.2 | .error _ => []) hf
    simpa using this.symm
  exact ⟨hbb ▸ this.1, this.2⟩

theorem umid_err {bb : BitBin} {l : Nat} {e : Err}
    (h : SegmentationDescriptor.umid bb l = .error e) : e = .bufferUnderrun := by
  unfold SegmentationDescriptor.umid at h
  rcases bind_err_inv h with hd | ⟨⟨s, bb1⟩, hd, hf⟩
  · exact ashex_err hd
  · exact absurd hf (by simp)

theorem eidr_ok {bb : BitBin} {l : Nat} {u : Upid} {bb' : BitBin}
    (h : SegmentationDescriptor.eidr bb l = .ok (u, bb')) :
    bb' = bb.drop 96 ∧ 96 ≤ bb.length := by
  unfold SegmentationDescriptor.eidr at h
  obtain ⟨⟨pre, bb1⟩, h1, h⟩ := bind_ok_inv h
  obtain ⟨⟨post, bb2⟩, h2, h⟩ := bind_ok_inv h
  obtain ⟨hb1, hl1, _, hle1⟩ := asint_ok h1
  obtain ⟨hb2, hle2⟩ := ashex_ok h2
  have hbb : bb' = bb2 := by
    have := congrArg (fun x => match x with | Except.ok p => p.2 | .error _ => []) h
    simpa using this.symm
  have hd1 : bb1 = bb.drop 16 := hb1 ▸ by simp
  constructor
  · rw [hbb, hb2, hd1, List.drop_drop]
  · have : bb1.length = bb.length - 16 := by rw [hd1]; simp
    omega

theorem eidr_err {bb : BitBin} {l : Nat} {e : Err}
    (h : SegmentationDescriptor.eidr bb l = .error e) : e = .bufferUnderrun := by
  unfold SegmentationDescriptor.eidr at h
  rcases bind_err_inv h with h1 | ⟨⟨pre, bb1⟩, h1, h⟩
  · exact asint_err h1
  rcases bind_err_inv h with h2 | ⟨⟨post, bb2⟩, h2, h⟩
  · exact ashex_err h2
  · exact absurd h (by simp)

theorem atsc_ok {bb : BitBin} {l : Nat} {u : Upid} {bb' : BitBin}
    (h : SegmentationDescriptor.atsc bb l = .ok (u, bb')) :
    4 ≤ l ∧ bb' = bb.drop (8 * l) ∧ 8 * l ≤ bb.length := by
  unfold SegmentationDescriptor.atsc at h
  obtain ⟨⟨tsid, bb1⟩, h1, h⟩ := bind_ok_inv h
  obtain ⟨⟨res, bb2⟩, h2, h⟩ := bind_ok_inv h
  obtain ⟨⟨eod, bb3⟩, h3, h⟩ := bind_ok_inv h
  obtain ⟨⟨ufor, bb4⟩, h4, h⟩ := bind_ok_inv h
  obtain ⟨⟨cid, bb5⟩, h5, h⟩ := bind_ok_inv h
  obtain ⟨_, _, hd1, hle1⟩ := asint_ok h1
  obtain ⟨_, _, hd2, hle2⟩ := asint_ok h2
  obtain ⟨_, _, hd3, hle3⟩ := asint_ok h3
  obtain ⟨_, _, hd4, hle4⟩ := asint_ok h4
  obtain ⟨hpos, hd5, hle5⟩ := asdecodedhexI_ok h5
  have hl4 : 4 ≤ l := by
    by_contra hc
    push_neg at hc
    have : ((l : Int) - 4) * 8 < 0 := by
      have : (l : Int) < 4 := by exact_mod_cast hc
      nlinarith
    omega
  have htn : (((l : Int) - 4) * 8).toNat = 8 * l - 32 := by
    have hl4i : (4 : Int) ≤ (l : Int) := by exact_mod_cast hl4
    omega
  have hbb : bb' = bb5 := by
    have := congrArg (fun x => match x with | Except.ok p => p.2 | .error _ => []) h
    simpa using this.symm
  have hb4 : bb4 = bb.drop 32 := by
    rw [hd4, hd3, hd2, hd1]
    simp [List.drop_drop]
  have hlen4 : bb4.length = bb.length - 32 := by rw [hb4]; simp
  refine ⟨hl4, ?_, ?_⟩
  · rw [hbb, hd5, htn, hb4, List.drop_drop]
    congr 1
    omega
  · have h1' : 16 ≤ bb.length := hle1
    have h2' : bb1.length = bb.length - 16 := by rw [hd1]; simp
    have h3' : bb2.length = bb1.length - 2 := by rw [hd2]; simp
    have h4' : bb3.length = bb2.length - 5 := by rw [hd3]; simp
    have h5' : bb4.length = bb3.length - 9 := by rw [hd4]; simp
    rw [htn] at hle5
    omega

theorem atsc_err {bb : BitBin} {l : Nat} {e : Err}
    (h : SegmentationDescriptor.atsc bb l = .error e) : e = .bufferUnderrun := by
  unfold SegmentationDescriptor.atsc at h
  rcases bind_err_inv h with h1 | ⟨⟨tsid, bb1⟩, h1, h⟩
  · exact asint_err h1
  rcases bind_err_inv h with h2 | ⟨⟨res, bb2⟩, h2, h⟩
  · exact asint_err h2
  rcases bind_err_inv h with h3 | ⟨⟨eod, bb3⟩, h3, h⟩
  · exact asint_err h3
  rcases bind_err_inv h with h4 | ⟨⟨ufor, bb4⟩, h4, h⟩
  · exact asint_err h4
  rcases bind_err_inv h with h5 | ⟨⟨cid, bb5⟩, h5, h⟩
  · exact asdecodedhexI_err h5
  · exact absurd h (by simp)

theorem mpu_ok {bb : BitBin} {l : Nat} {u : Upid} {bb' : BitBin}
    (h : SegmentationDescriptor.mpu bb l = .ok (u, bb')) :
    4 ≤ l ∧ bb' = bb.drop (8 * l) ∧ 8 * l ≤ bb.length := by
  unfold SegmentationDescriptor.mpu at h
  obtain ⟨⟨fmt, bb1⟩, h1, h⟩ := bind_ok_inv h
  obtain ⟨⟨priv, bb2⟩, h2, h⟩ := bind_ok_inv h
  obtain ⟨_, _, hd1, hle1⟩ := asint_ok h1
  obtain ⟨hpos, hd2, hle2⟩ := asintI_ok h2
  have hl4 : 4 ≤ l := by
    by_contra hc
    push_neg at hc
    have hli : (l : Int) < 4 := by exact_mod_cast hc
    have : (l : Int) * 8 - 32 < 0 := by nlinarith
    omega
  have htn : ((l : Int) * 8 - 32).toNat = 8 * l - 32 := by
    have : (4 : Int) ≤ (l : Int) := by exact_mod_cast hl4
    omega
  have hbb : bb' = bb2 := by
    have := congrArg (fun x => match x with | Except.ok p => p.2 | .error _ => []) h
    simpa using this.symm
  have hlen1 : bb1.length = bb.length - 32 := by rw [hd1]; simp
  refine ⟨hl4, ?_, ?_⟩
  · rw [hbb, hd2, htn, hd1, List.drop_drop]
    congr 1
    omega
  · rw [htn] at hle2
    omega

theorem mpu_err {bb : BitBin} {l : Nat} {e : Err}
    (h : SegmentationDescriptor.mpu bb l = .error e) : e = .bufferUnderrun := by
  unfold SegmentationDescriptor.mpu at h
  rcases bind_err_inv h with h1 | ⟨⟨fmt, bb1⟩, h1, h⟩
  · exact asint_err h1
  rcases bind_err_inv h with h2 | ⟨⟨priv, bb2⟩, h2, h⟩
  · exact asintI_err h2
  · exact absurd h (by simp)

theorem prod_ok_snd {α β : Type} {x : α} {y : β} {u : α} {bb' : β}
    (h : (Except.ok (x, y) : Except Err (α × β)) = .ok (u, bb')) :
    u = x ∧ bb' = y := by
  have h1 := congrArg (fun z => match z with | Except.ok p => p.1 | .error _ => u) h
  have h2 := congrArg (fun z => match z with | Except.ok p => p.2 | .error _ => bb') h
  simp at h1 h2
  exact ⟨h1.symm, h2.symm⟩

theorem mid_dispatch_mono (fuel : Nat) :
    (∀ bb t l u bb',
      SegmentationDescriptor.set_segmentation_upid fuel bb t l = .ok (u, bb') →
      bb'.length ≤ bb.length) ∧
    (∀ bb b_c us bb',
      SegmentationDescriptor.mid fuel bb b_c = .ok (us, bb') →
      bb'.length ≤ bb.length) := by
  induction fuel with
  | zero =>
    constructor
    · intro bb t l u bb' h
      exact absurd h (by rw [show SegmentationDescriptor.set_segmentation_upid 0
        bb t l = .error .outOfFuel from rfl]; simp)
    · intro bb b_c us bb' h
      exact absurd h (by rw [show SegmentationDescriptor.mid 0 bb b_c
        = .error .outOfFuel from rfl]; simp)
  | succ fuel ih =>
    constructor
    · intro bb t l u bb' h
      rw [show SegmentationDescriptor.set_segmentation_upid (fuel + 1) bb t l
        = dispatchBody (SegmentationDescriptor.mid fuel) bb t l from rfl] at h
      unfold dispatchBody at h
      by_cases hc0 : t = 0x02
      · rw [if_pos hc0] at h
        obtain ⟨⟨x, bb1⟩, hD, hf⟩ := bind_ok_inv h
        obtain ⟨-, hb⟩ := prod_ok_snd hf
        rw [hb, (uri_ok hD).1]
        simp
      rw [if_neg hc0] at h
      by_cases hc1 : t = 0x03
      · rw [if_pos hc1] at h
        obtain ⟨⟨x, bb1⟩, hD, hf⟩ := bind_ok_inv h
        obtain ⟨-, hb⟩ := prod_ok_snd hf
        rw [hb, (uri_ok hD).1]
        simp
      rw [if_neg hc1] at h
      by_cases hc2 : t = 0x04
      · rw [if_pos hc2] at h
        obtain ⟨⟨x, bb1⟩, hD, hf⟩ := bind_ok_inv h
        obtain ⟨-, hb⟩ := prod_ok_snd hf
        rw [hb, (umid_ok hD).1]
        simp
      rw [if_neg hc2] at h
      by_cases hc3 : t = 0x05
      · rw [if_pos hc3] at h
        obtain ⟨⟨x, bb1⟩, hD, hf⟩ := bind_ok_inv h
        obtain ⟨-, hb⟩ := prod_ok_snd hf
        rw [hb, (isan_ok hD).1]
        simp
      rw [if_neg hc3] at h
      by_cases hc4 : t = 0x06
      · rw [if_pos hc4] at h
        obtain ⟨⟨x, bb1⟩, hD, hf⟩ := bind_ok_inv h
        obtain ⟨-, hb⟩ := prod_ok_snd hf
        rw [hb, (isan_ok hD).1]
        simp
      rw [if_neg hc4] at h
      by_cases hc5 : t = 0x07
      · rw [if_pos hc5] at h
        obtain ⟨⟨x, bb1⟩, hD, hf⟩ := bind_ok_inv h
        obtain ⟨-, hb⟩ := prod_ok_snd hf
        rw [hb, (uri_ok hD).1]
        simp
      rw [if_neg hc5] at h
      by_cases hc6 : t = 0x08
      · rw [if_pos hc6] at h
        obtain ⟨⟨x, bb1⟩, hD, hf⟩ := bind_ok_inv h
        obtain ⟨-, hb⟩ := prod_ok_snd hf
        rw [hb, (air_id_ok hD).1]
        simp
      rw [if_neg hc6] at h
      by_cases hc7 : t = 0x09
      · rw [if_pos hc7] at h
        obtain ⟨⟨x, bb1⟩, hD, hf⟩ := bind_ok_inv h
        obtain ⟨-, hb⟩ := prod_ok_snd hf
        rw [hb, (uri_ok hD).1]
        simp
      rw [if_neg hc7] at h
      by_cases hc8 : t = 0x0A
      · rw [if_pos hc8] at h
        obtain ⟨⟨x, bb1⟩, hD, hf⟩ := bind_ok_inv h
        obtain ⟨-, hb⟩ := prod_ok_snd hf
        rw [hb, (eidr_ok hD).1]
        simp
      rw [if_neg hc8] at h
      by_cases hc9 : t = 0x0B
      · rw [if_pos hc9] at h
        obtain ⟨⟨x, bb1⟩, hD, hf⟩ := bind_ok_inv h
        obtain ⟨-, hb⟩ := prod_ok_snd hf
        rw [hb, (atsc_ok hD).2.1]
        simp
      rw [if_neg hc9] at h
      by_cases hc10 : t = 0x0C
      · rw [if_pos hc10] at h
        obtain ⟨⟨x, bb1⟩, hD, hf⟩ := bind_ok_inv h
        obtain ⟨-, hb⟩ := prod_ok_snd hf
        rw [hb, (mpu_ok hD).2.1]
        simp
      rw [if_neg hc10] at h
      by_cases hc11 : t = 0x0D
      · rw [if_pos hc11] at h
        obtain ⟨⟨x, bb1⟩, hD, hf⟩ := bind_ok_inv h
        obtain ⟨-, hb⟩ := prod_ok_snd hf
        rw [hb]
        exact ih.2 _ _ _ _ hD
      rw [if_neg hc11] at h
      by_cases hc12 : t = 0x0E
      · rw [if_pos hc12] at h
        obtain ⟨⟨x, bb1⟩, hD, hf⟩ := bind_ok_inv h
        obtain ⟨-, hb⟩ := prod_ok_snd hf
        rw [hb, (uri_ok hD).1]
        simp
      rw [if_neg hc12] at h
      by_cases hc13 : t = 0x0F
      · rw [if_pos hc13] at h
        obtain ⟨⟨x, bb1⟩, hD, hf⟩ := bind_ok_inv h
        obtain ⟨-, hb⟩ := prod_ok_snd hf
        rw [hb, (uri_ok hD).1]
        simp
      rw [if_neg hc13] at h
      obtain ⟨-, hb⟩ := prod_ok_snd h
      rw [hb]
    · intro bb b_c us bb' h
      rw [show SegmentationDescriptor.mid (fuel + 1) bb b_c
        = midBody (SegmentationDescriptor.set_segmentation_upid fuel)
          (SegmentationDescriptor.mid fuel) bb b_c from rfl] at h
      unfold midBody at h
      by_cases hz : b_c = 0
      · rw [if_pos hz] at h
        obtain ⟨-, hb⟩ := prod_ok_snd h
        rw [hb]
      · rw [if_neg hz] at h
        obtain ⟨⟨t, bb1⟩, h1, h⟩ := bind_ok_inv h
        obtain ⟨⟨l, bb2⟩, h2, h⟩ := bind_ok_inv h
        obtain ⟨⟨u, bb3⟩, h3, h⟩ := bind_ok_inv h
        obtain ⟨⟨us2, bb4⟩, h4, h⟩ := bind_ok_inv h
        obtain ⟨-, hb⟩ := prod_ok_snd h
        have e1 : bb1.length ≤ bb.length := by
          rw [(asint_ok h1).2.2.1]
          simp
        have e2 : bb2.length ≤ bb1.length := by
          rw [(asint_ok h2).2.2.1]
          simp
        have e3 : bb3.length ≤ bb2.length := ih.1 _ _ _ _ _ h3
        have e4 : bb4.length ≤ bb3.length := ih.2 _ _ _ _ h4
        rw [hb]
        omega

theorem mid_dispatch_fuel (fuel : Nat) :
    (∀ bb t l e, bb.length + 3 ≤ fuel →
      SegmentationDescriptor.set_segmentation_upid fuel bb t l = .error e →
      e = .bufferUnderrun) ∧
    (∀ bb b_c e, bb.length + 2 ≤ fuel →
      SegmentationDescriptor.mid fuel bb b_c = .error e →
      e = .bufferUnderrun) := by
  induction fuel with
  | zero =>
    exact ⟨fun bb t l e hf _ => absurd hf (by omega),
      fun bb b_c e hf _ => absurd hf (by omega)⟩
  | succ fuel ih =>
    constructor
    · intro bb t l e hf h
      rw [show SegmentationDescriptor.set_segmentation_upid (fuel + 1) bb t l
        = dispatchBody (SegmentationDescriptor.mid fuel) bb t l from rfl] at h
      unfold dispatchBody at h
      by_cases hc0 : t = 0x02
      · rw [if_pos hc0] at h
        rcases bind_err_inv h with hD | ⟨⟨x, bb1⟩, hD, hfin⟩
        · exact uri_err hD
        · exact absurd hfin (by simp)
      rw [if_neg hc0] at h
      by_cases hc1 : t = 0x03
      · rw [if_pos hc1] at h
        rcases bind_err_inv h with hD | ⟨⟨x, bb1⟩, hD, hfin⟩
        · exact uri_err hD
        · exact absurd hfin (by simp)
      rw [if_neg hc1] at h
      by_cases hc2 : t = 0x04
      · rw [if_pos hc2] at h
        rcases bind_err_inv h with hD | ⟨⟨x, bb1⟩, hD, hfin⟩
        · exact umid_err hD
        · exact absurd hfin (by simp)
      rw [if_neg hc2] at h
      by_cases hc3 : t = 0x05
      · rw [if_pos hc3] at h
        rcases bind_err_inv h with hD | ⟨⟨x, bb1⟩, hD, hfin⟩
        · exact isan_err hD
        · exact absurd hfin (by simp)
      rw [if_neg hc3] at h
      by_cases hc4 : t = 0x06
      · rw [if_pos hc4] at h
        rcases bind_err_inv h with hD | ⟨⟨x, bb1⟩, hD, hfin⟩
        · exact isan_err hD
        · exact absurd hfin (by simp)
      rw [if_neg hc4] at h
      by_cases hc5 : t = 0x07
      · rw [if_pos hc5] at h
        rcases bind_err_inv h with hD | ⟨⟨x, bb1⟩, hD, hfin⟩
        · exact uri_err hD
        · exact absurd hfin (by simp)
      rw [if_neg hc5] at h
      by_cases hc6 : t = 0x08
      · rw [if_pos hc6] at h
        rcases bind_err_inv h with hD | ⟨⟨x, bb1⟩, hD, hfin⟩
        · exact air_id_err hD
        · exact absurd hfin (by simp)
      rw [if_neg hc6] at h
      by_cases hc7 : t = 0x09
      · rw [if_pos hc7] at h
        rcases bind_err_inv h with hD | ⟨⟨x, bb1⟩, hD, hfin⟩
        · exact uri_err hD
        · exact absurd hfin (by simp)
      rw [if_neg hc7] at h
      by_cases hc8 : t = 0x0A
      · rw [if_pos hc8] at h
        rcases bind_err_inv h with hD | ⟨⟨x, bb1⟩, hD, hfin⟩
        · exact eidr_err hD
        · exact absurd hfin (by simp)
      rw [if_neg hc8] at h
      by_cases hc9 : t = 0x0B
      · rw [if_pos hc9] at h
        rcases bind_err_inv h with hD | ⟨⟨x, bb1⟩, hD, hfin⟩
        · exact atsc_err hD
        · exact absurd hfin (by simp)
      rw [if_neg hc9] at h
      by_cases hc10 : t = 0x0C
      · rw [if_pos hc10] at h
        rcases bind_err_inv h with hD | ⟨⟨x, bb1⟩, hD, hfin⟩
        · exact mpu_err hD
        · exact absurd hfin (by simp)
      rw [if_neg hc10] at h
      by_cases hc11 : t = 0x0D
      · rw [if_pos hc11] at h
        rcases bind_err_inv h with hD | ⟨⟨x, bb1⟩, hD, hfin⟩
        · exact ih.2 _ _ _ (by omega) hD
        · exact absurd hfin (by simp)
      rw [if_neg hc11] at h
      by_cases hc12 : t = 0x0E
      · rw [if_pos hc12] at h
        rcases bind_err_inv h with hD | ⟨⟨x, bb1⟩, hD, hfin⟩
        · exact uri_err hD
        · exact absurd hfin (by simp)
      rw [if_neg hc12] at h
      by_cases hc13 : t = 0x0F
      · rw [if_pos hc13] at h
        rcases bind_err_inv h with hD | ⟨⟨x, bb1⟩, hD, hfin⟩
        · exact uri_err hD
        · exact absurd hfin (by simp)
      rw [if_neg hc13] at h
      exact absurd h (by simp)
    · intro bb b_c e hf h
      rw [show SegmentationDescriptor.mid (fuel + 1) bb b_c
        = midBody (SegmentationDescriptor.set_segmentation_upid fuel)
          (SegmentationDescriptor.mid fuel) bb b_c from rfl] at h
      unfold midBody at h
      by_cases hz : b_c = 0
      · rw [if_pos hz] at h
        exact absurd h (by simp)
      · rw [if_neg hz] at h
        rcases bind_err_inv h with h1 | ⟨⟨t, bb1⟩, h1, h⟩
        · exact asint_err h1
        rcases bind_err_inv h with h2 | ⟨⟨l, bb2⟩, h2, h⟩
        · exact asint_err h2
        obtain ⟨-, -, hd1, hle1⟩ := asint_ok h1
        obtain ⟨-, -, hd2, hle2⟩ := asint_ok h2
        have l1 : bb1.length = bb.length - 8 := by rw [hd1]; simp
        have l2 : bb2.length = bb1.length - 8 := by rw [hd2]; simp
        rcases bind_err_inv h with h3 | ⟨⟨u, bb3⟩, h3, h⟩
        · exact ih.1 _ _ _ _ (by omega) h3
        rcases bind_err_inv h with h4 | ⟨⟨us2, bb4⟩, h4, h⟩
        · have e3 : bb3.length ≤ bb2.length :=
            (mid_dispatch_mono fuel).1 _ _ _ _ _ h3
          exact ih.2 _ _ _ (by omega) h4
        · exact absurd h (by simp)

theorem mod_two_pow_succ (v n : Nat) :
    v % 2 ^ (n + 1) = 2 ^ n * (v / 2 ^ n % 2) + v % 2 ^ n := by
  have hq := Nat.div_add_mod v (2 ^ n)
  have hq2 := Nat.div_add_mod (v / 2 ^ n) 2
  have hr : v % 2 ^ n < 2 ^ n := Nat.mod_lt _ (by positivity)
  have hb : v / 2 ^ n % 2 ≤ 1 := by omega
  have hv : v = 2 ^ (n + 1) * (v / 2 ^ n / 2)
      + (2 ^ n * (v / 2 ^ n % 2) + v % 2 ^ n) := by
    calc v = 2 ^ n * (v / 2 ^ n) + v % 2 ^ n := hq.symm
      _ = 2 ^ n * (2 * (v / 2 ^ n / 2) + v / 2 ^ n % 2) + v % 2 ^ n := by
            rw [hq2]
      _ = 2 ^ (n + 1) * (v / 2 ^ n / 2)
          + (2 ^ n * (v / 2 ^ n % 2) + v % 2 ^ n) := by ring
  conv_lhs => rw [hv]
  rw [Nat.mul_add_mod]
  refine Nat.mod_eq_of_lt ?_
  rw [pow_succ]
  have h1 : 2 ^ n * (v / 2 ^ n % 2) ≤ 2 ^ n * 1 := Nat.mul_le_mul_left _ hb
  omega

theorem bitsToNat_natToBits (v n : Nat) :
    bitsToNat (natToBits v n) = v % 2 ^ n := by
  induction n with
  | zero => simp [natToBits, bitsToNat, Nat.mod_one]
  | succ n ih =>
    simp only [natToBits, bitsToNat, natToBits_length, ih]
    rw [mod_two_pow_succ, Nat.testBit_to_div_mod]
    rcases Nat.mod_two_eq_zero_or_one (v / 2 ^ n) with h | h <;>
      simp [h, Nat.mul_comm]

theorem ok_bind {α β : Type} (a : α) (f : α → Except Err β) :
    (Except.ok a >>= f : Except Err β) = f a := rfl

theorem asint_prefix {pre : Bits} (bs : Bits) {n : Nat} (h : pre.length = n) :
    BitBin.asint (pre ++ bs) n = .ok (bitsToNat pre, bs) := by
  unfold BitBin.asint
  rw [if_pos (by simp [← h]), List.take_left' h, List.drop_left' h]

theorem asint_byte (x : Nat) (hx : x < 256) (bs : Bits) :
    BitBin.asint (natToBits x 8 ++ bs) 8 = .ok (x, bs) := by
  rw [ asint_prefix bs (natToBits_length x 8), bitsToNat_natToBits]
  congr 1
  rw [show (2 : Nat) ^ 8 = 256 from by norm_num, Nat.mod_eq_of_lt hx]

theorem asdecodedhex_prefix {pre : Bits} (bs : Bits) {n : Nat}
    (h : pre.length = n) :
    BitBin.asdecodedhex (pre ++ bs) n
      = .ok (decodeAscii (bitsToBytes pre), bs) := by
  unfold BitBin.asdecodedhex
  rw [if_pos (by simp [← h]), List.take_left' h, List.drop_left' h]

theorem ashex_prefix {pre : Bits} (bs : Bits) {n : Nat} (h : pre.length = n) :
    BitBin.ashex (pre ++ bs) n = .ok (pyHex (bitsToNat pre), bs) := by
  unfold BitBin.ashex
  rw [if_pos (by simp [← h]), List.take_left' h, List.drop_left' h]

theorem as90k_prefix {pre : Bits} (bs : Bits) {n : Nat} (h : pre.length = n) :
    BitBin.as90k (pre ++ bs) n = .ok ((bitsToNat pre : Rat) / 90000, bs) := by
  unfold BitBin.as90k
  rw [if_pos (by simp [← h]), List.take_left' h, List.drop_left' h]

theorem forward_prefix {pre : Bits} (bs : Bits) {n : Nat} (h : pre.length = n) :
    BitBin.forward (pre ++ bs) n = .ok bs := by
  unfold BitBin.forward
  rw [if_pos (by simp [← h]), List.drop_left' h]

theorem asflag_cons (x : Bool) (bs : Bits) :
    BitBin.asflag (x :: bs) = .ok (x, bs) := rfl

/-- The nested UPID value the dispatch produces for a URI entry with the
given payload bytes: the Label:value wrapping of the decoded string, or
of python None when the payload is empty. -/
def uriUpid (p : List Nat) : Upid :=
  if 0 < p.length then
    .labeled "URI" (.str (decodeAscii (bitsToBytes (bytesToBits p))))
  else .labeled "URI" .pyNone

theorem dispatch_uri (fuel : Nat) (L : Nat) (p : List Nat) (X : Bits)
    (hp : p.length = L) :
    SegmentationDescriptor.set_segmentation_upid (fuel + 1)
      (bytesToBits p ++ X) 0x0F L = .ok (uriUpid p, X) := by
  rw [show SegmentationDescriptor.set_segmentation_upid (fuel + 1)
      (bytesToBits p ++ X) 0x0F L
    = dispatchBody (SegmentationDescriptor.mid fuel) (bytesToBits p ++ X)
      0x0F L from rfl]
  unfold dispatchBody
  norm_num
  unfold SegmentationDescriptor.uri
  by_cases hL : L > 0
  · rw [if_pos hL, shiftl3,
      asdecodedhex_prefix X (by rw [bytesToBits_length, hp]), ok_bind]
    unfold uriUpid
    rw [if_pos (by omega)]
    rfl
  · rw [if_neg hL]
    have hp0 : p = [] := List.length_eq_zero.mp (by omega)
    subst hp0
    unfold uriUpid
    simp [bytesToBits, ok_bind]

theorem mid_uri_iteration (f L : Nat) (p : List Nat) (X : Bits)
    (hL : L < 256) (hp : p.length = L) (c : Int) (hc : c ≠ 0) :
    SegmentationDescriptor.mid (f + 1 + 1)
      (natToBits 0x0F 8 ++ (natToBits L 8 ++ (bytesToBits p ++ X))) c
    = (SegmentationDescriptor.mid (f + 1) X (c - 16 - (L : Int) * 8)).map
        (fun pr => (uriUpid p :: pr.1, pr.2)) := by
  rw [show SegmentationDescriptor.mid (f + 1 + 1)
      (natToBits 0x0F 8 ++ (natToBits L 8 ++ (bytesToBits p ++ X))) c
    = midBody (SegmentationDescriptor.set_segmentation_upid (f + 1))
      (SegmentationDescriptor.mid (f + 1))
      (natToBits 0x0F 8 ++ (natToBits L 8 ++ (bytesToBits p ++ X))) c
    from rfl]
  unfold midBody
  rw [if_neg hc]
  simp only [asint_byte 0x0F (by norm_num), asint_byte L hL,
    dispatch_uri f L p X hp, ok_bind]
  cases SegmentationDescriptor.mid (f + 1) X (c - 16 - (L : Int) * 8) with
  | ok pr =>
    cases pr
    rfl
  | error e => rfl

/-- C7: the _mid decoder applied to a buffer holding exactly two nested
URI (0x0F) entries of declared lengths L1 and L2, with declared MID byte
length L1 + L2 + 4, consumes exactly L1 + L2 + 4 bytes, namely the two
2-byte nested type and length headers plus the two payloads, leaving the
trailing bytes unread, and returns a 2-element sequence of decoded nested
payloads. -/
theorem c7_mid_two_nested_uris (fuel L1 L2 : Nat) (p1 p2 rest : List Nat)
    (hf : 5 ≤ fuel) (hL1 : L1 < 256) (hL2 : L2 < 256)
    (hp1 : p1.length = L1) (hp2 : p2.length = L2) :
    SegmentationDescriptor.mid fuel
      (bytesToBits ([0x0F, L1] ++ p1 ++ ([0x0F, L2] ++ p2 ++ rest)))
      (8 * ((L1 : Int) + L2 + 4))
    = .ok ([uriUpid p1, uriUpid p2], bytesToBits rest) := by
  obtain ⟨k, rfl⟩ : ∃ k, fuel = k + 1 + 1 + 1 + 1 + 1 := ⟨fuel - 5, by omega⟩
  have hsplit : bytesToBits ([0x0F, L1] ++ p1 ++ ([0x0F, L2] ++ p2 ++ rest))
      = natToBits 0x0F 8 ++ (natToBits L1 8 ++ (bytesToBits p1 ++
        (natToBits 0x0F 8 ++ (natToBits L2 8 ++ (bytesToBits p2
          ++ bytesToBits rest))))) := by
    simp [bytesToBits_append, bytesToBits, List.append_assoc]
  rw [hsplit]
  rw [mid_uri_iteration (k + 1 + 1 + 1) L1 p1
    (natToBits 0x0F 8 ++ (natToBits L2 8 ++ (bytesToBits p2
      ++ bytesToBits rest)))
    hL1 hp1 (8 * ((L1 : Int) + L2 + 4)) (by omega)]
  have hc2 : 8 * ((L1 : Int) + L2 + 4) - 16 - (L1 : Int) * 8
      = 8 * (L2 : Int) + 16 := by ring
  rw [hc2]
  rw [mid_uri_iteration (k + 1 + 1) L2 p2 (bytesToBits rest)
    hL2 hp2 (8 * (L2 : Int) + 16) (by omega)]
  have hc3 : 8 * (L2 : Int) + 16 - 16 - (L2 : Int) * 8 = 0 := by ring
  rw [hc3]
  rw [show SegmentationDescriptor.mid (k + 1 + 1 + 1) (bytesToBits rest) 0
      = .ok ([], bytesToBits rest) from by
    rw [show SegmentationDescriptor.mid (k + 1 + 1 + 1) (bytesToBits rest) 0
      = midBody (SegmentationDescriptor.set_segmentation_upid (k + 1 + 1))
        (SegmentationDescriptor.mid (k + 1 + 1)) (bytesToBits rest) 0
      from rfl]
    unfold midBody
    rw [if_pos rfl]]
  rfl

/-- Witness for C7 at L1 = 1, L2 = 2 with payloads A and BC. -/
theorem c7_mid_two_nested_uris_witness :
    SegmentationDescriptor.mid 5
      (bytesToBits ([0x0F, 1] ++ [0x41] ++ ([0x0F, 2] ++ [0x42, 0x43] ++ [])))
      (8 * ((1 : Int) + 2 + 4))
    = .ok ([uriUpid [0x41], uriUpid [0x42, 0x43]], bytesToBits []) :=
  c7_mid_two_nested_uris 5 1 2 [0x41] [0x42, 0x43] []
    (by norm_num) (by norm_num) (by norm_num) (by norm_num) (by norm_num)

/-- C8: for every finite buffer and every declared counter, the _mid
while loop runs to completion with the fuel bounded by the buffer bit
count: it never exhausts the fuel, and every failure is a BufferUnderrun
of a bit-level read; in particular a nested declared length driving the
python counter negative cannot loop indefinitely, because every iteration
consumes at least the 16 header bits from the finite buffer. -/
theorem c8_mid_terminates (bb : BitBin) (b_c : Int) :
    SegmentationDescriptor.mid (bb.length + 2) bb b_c
      ≠ .error .outOfFuel ∧
    (∀ e, SegmentationDescriptor.mid (bb.length + 2) bb b_c = .error e →
      e = .bufferUnderrun) := by
  constructor
  · intro h
    have hcl := (mid_dispatch_fuel (bb.length + 2)).2 bb b_c .outOfFuel
      (by omega) h
    exact Err.noConfusion hcl
  · intro e h
    exact (mid_dispatch_fuel (bb.length + 2)).2 bb b_c e (by omega) h

/-- Witness for C8 on the empty buffer with a nonzero counter, where the
first header read fails with BufferUnderrun. -/
theorem c8_mid_terminates_witness :
    SegmentationDescriptor.mid 2 ([] : BitBin) 1 ≠ .error .outOfFuel ∧
    Err.bufferUnderrun = Err.bufferUnderrun :=
  ⟨(c8_mid_terminates [] 1).1,
   (c8_mid_terminates [] 1).2 .bufferUnderrun (by rfl)⟩

/-- C3 counterexample: the claim that the UPID dispatch consumes exactly
upid_length bytes worth of bits for every upid_type fails already for the
unmapped type 0x00 with declared length 1 on a buffer holding 16 bits:
the dispatch returns the empty string and consumes nothing. -/
theorem c3_counterexample :
    SegmentationDescriptor.set_segmentation_upid 5
      (List.replicate 16 false) 0x00 0x01
      = .ok (.str "", List.replicate 16 false) ∧
    ¬ ((List.replicate 16 false : BitBin).length
        = 8 * 0x01 + (List.replicate 16 false : BitBin).length) := by
  constructor
  · rfl
  · simp

/-- C3 amended: whenever the UPID dispatch succeeds, the ten simple
mapped types 0x02 to 0x09, 0x0E and 0x0F consume exactly upid_length
bytes worth of bits; type 0x0A (EIDR) always consumes exactly 12 bytes
regardless of the declared length; types 0x0B (ATSC) and 0x0C (MPU)
consume exactly upid_length bytes and require upid_length at least 4;
and an unmapped type consumes nothing and returns the empty string
without error. -/
theorem c3_dispatch_consumption (fuel : Nat) (bb : BitBin) (t l : Nat)
    (u : Upid) (bb' : BitBin)
    (h : SegmentationDescriptor.set_segmentation_upid fuel bb t l
      = .ok (u, bb')) :
    (t ∈ ([0x02, 0x03, 0x04, 0x05, 0x06, 0x07, 0x08, 0x09, 0x0E, 0x0F] : List Nat) →
      bb' = bb.drop (8 * l) ∧ bb.length = 8 * l + bb'.length) ∧
    (t = 0x0A → bb' = bb.drop 96 ∧ bb.length = 96 + bb'.length) ∧
    ((t = 0x0B ∨ t = 0x0C) →
      4 ≤ l ∧ bb' = bb.drop (8 * l) ∧ bb.length = 8 * l + bb'.length) ∧
    (t ∉ ([0x02, 0x03, 0x04, 0x05, 0x06, 0x07, 0x08, 0x09, 0x0A, 0x0B,
        0x0C, 0x0D, 0x0E, 0x0F] : List Nat) →
      u = .str "" ∧ bb' = bb) := by
  cases fuel with
  | zero =>
    exact absurd h (by rw [show SegmentationDescriptor.set_segmentation_upid
      0 bb t l = .error .outOfFuel from rfl]; simp)
  | succ fuel =>
    rw [show SegmentationDescriptor.set_segmentation_upid (fuel + 1) bb t l
      = dispatchBody (SegmentationDescriptor.mid fuel) bb t l from rfl] at h
    unfold dispatchBody at h
    by_cases hc0 : t = 0x02
    · rw [if_pos hc0] at h
      obtain ⟨⟨x, bb1⟩, hD, hfin⟩ := bind_ok_inv h
      obtain ⟨hu, hb⟩ := prod_ok_snd hfin
      obtain ⟨hdrop, hle⟩ := uri_ok hD
      have hlen : bb.length = 8 * l + bb'.length := by
        have hd : (List.drop (8 * l) bb).length = bb.length - 8 * l := by
          simp
        rw [hb, hdrop, hd]
        omega
      refine ⟨fun _ => ⟨by rw [hb, hdrop], hlen⟩, ?_, ?_, ?_⟩
      · intro hm
        exact absurd (hc0.symm.trans hm) (by decide)
      · intro hm
        rcases hm with hm | hm <;>
          exact absurd (hc0.symm.trans hm) (by decide)
      · intro hnm
        exact absurd (by rw [hc0]; decide) hnm
    rw [if_neg hc0] at h
    by_cases hc1 : t = 0x03
    · rw [if_pos hc1] at h
      obtain ⟨⟨x, bb1⟩, hD, hfin⟩ := bind_ok_inv h
      obtain ⟨hu, hb⟩ := prod_ok_snd hfin
      obtain ⟨hdrop, hle⟩ := uri_ok hD
      have hlen : bb.length = 8 * l + bb'.length := by
        have hd : (List.drop (8 * l) bb).length = bb.length - 8 * l := by
          simp
        rw [hb, hdrop, hd]
        omega
      refine ⟨fun _ => ⟨by rw [hb, hdrop], hlen⟩, ?_, ?_, ?_⟩
      · intro hm
        exact absurd (hc1.symm.trans hm) (by decide)
      · intro hm
        rcases hm with hm | hm <;>
          exact absurd (hc1.symm.trans hm) (by decide)
      · intro hnm
        exact absurd (by rw [hc1]; decide) hnm
    rw [if_neg hc1] at h
    by_cases hc2 : t = 0x04
    · rw [if_pos hc2] at h
      obtain ⟨⟨x, bb1⟩, hD, hfin⟩ := bind_ok_inv h
      obtain ⟨hu, hb⟩ := prod_ok_snd hfin
      obtain ⟨hdrop, hle⟩ := umid_ok hD
      have hlen : bb.length = 8 * l + bb'.length := by
        have hd : (List.drop (8 * l) bb).length = bb.length - 8 * l := by
          simp
        rw [hb, hdrop, hd]
        omega
      refine ⟨fun _ => ⟨by rw [hb, hdrop], hlen⟩, ?_, ?_, ?_⟩
      · intro hm
        exact absurd (hc2.symm.trans hm) (by decide)
      · intro hm
        rcases hm with hm | hm <;>
          exact absurd (hc2.symm.trans hm) (by decide)
      · intro hnm
        exact absurd (by rw [hc2]; decide) hnm
    rw [if_neg hc2] at h
    by_cases hc3 : t = 0x05
    · rw [if_pos hc3] at h
      obtain ⟨⟨x, bb1⟩, hD, hfin⟩ := bind_ok_inv h
      obtain ⟨hu, hb⟩ := prod_ok_snd hfin
      obtain ⟨hdrop, hle⟩ := isan_ok hD
      have hlen : bb.length = 8 * l + bb'.length := by
        have hd : (List.drop (8 * l) bb).length = bb.length - 8 * l := by
          simp
        rw [hb, hdrop, hd]
        omega
      refine ⟨fun _ => ⟨by rw [hb, hdrop], hlen⟩, ?_, ?_, ?_⟩
      · intro hm
        exact absurd (hc3.symm.trans hm) (by decide)
      · intro hm
        rcases hm with hm | hm <;>
          exact absurd (hc3.symm.trans hm) (by decide)
      · intro hnm
        exact absurd (by rw [hc3]; decide) hnm
    rw [if_neg hc3] at h
    by_cases hc4 : t = 0x06
    · rw [if_pos hc4] at h
      obtain ⟨⟨x, bb1⟩, hD, hfin⟩ := bind_ok_inv h
      obtain ⟨hu, hb⟩ := prod_ok_snd hfin
      obtain ⟨hdrop, hle⟩ := isan_ok hD
      have hlen : bb.length = 8 * l + bb'.length := by
        have hd : (List.drop (8 * l) bb).length = bb.length - 8 * l := by
          simp
        rw [hb, hdrop, hd]
        omega
      refine ⟨fun _ => ⟨by rw [hb, hdrop], hlen⟩, ?_, ?_, ?_⟩
      · intro hm
        exact absurd (hc4.symm.trans hm) (by decide)
      · intro hm
        rcases hm with hm | hm <;>
          exact absurd (hc4.symm.trans hm) (by decide)
      · intro hnm
        exact absurd (by rw [hc4]; decide) hnm
    rw [if_neg hc4] at h
    by_cases hc5 : t = 0x07
    · rw [if_pos hc5] at h
      obtain ⟨⟨x, bb1⟩, hD, hfin⟩ := bind_ok_inv h
      obtain ⟨hu, hb⟩ := prod_ok_snd hfin
      obtain ⟨hdrop, hle⟩ := uri_ok hD
      have hlen : bb.length = 8 * l + bb'.length := by
        have hd : (List.drop (8 * l) bb).length = bb.length - 8 * l := by
          simp
        rw [hb, hdrop, hd]
        omega
      refine ⟨fun _ => ⟨by rw [hb, hdrop], hlen⟩, ?_, ?_, ?_⟩
      · intro hm
        exact absurd (hc5.symm.trans hm) (by decide)
      · intro hm
        rcases hm with hm | hm <;>
          exact absurd (hc5.symm.trans hm) (by decide)
      · intro hnm
        exact absurd (by rw [hc5]; decide) hnm
    rw [if_neg hc5] at h
    by_cases hc6 : t = 0x08
    · rw [if_pos hc6] at h
      obtain ⟨⟨x, bb1⟩, hD, hfin⟩ := bind_ok_inv h
      obtain ⟨hu, hb⟩ := prod_ok_snd hfin
      obtain ⟨hdrop, hle⟩ := air_id_ok hD
      have hlen : bb.length = 8 * l + bb'.length := by
        have hd : (List.drop (8 * l) bb).length = bb.length - 8 * l := by
          simp
        rw [hb, hdrop, hd]
        omega
      refine ⟨fun _ => ⟨by rw [hb, hdrop], hlen⟩, ?_, ?_, ?_⟩
      · intro hm
        exact absurd (hc6.symm.trans hm) (by decide)
      · intro hm
        rcases hm with hm | hm <;>
          exact absurd (hc6.symm.trans hm) (by decide)
      · intro hnm
        exact absurd (by rw [hc6]; decide) hnm
    rw [if_neg hc6] at h
    by_cases hc7 : t = 0x09
    · rw [if_pos hc7] at h
      obtain ⟨⟨x, bb1⟩, hD, hfin⟩ := bind_ok_inv h
      obtain ⟨hu, hb⟩ := prod_ok_snd hfin
      obtain ⟨hdrop, hle⟩ := uri_ok hD
      have hlen : bb.length = 8 * l + bb'.length := by
        have hd : (List.drop (8 * l) bb).length = bb.length - 8 * l := by
          simp
        rw [hb, hdrop, hd]
        omega
      refine ⟨fun _ => ⟨by rw [hb, hdrop], hlen⟩, ?_, ?_, ?_⟩
      · intro hm
        exact absurd (hc7.symm.trans hm) (by decide)
      · intro hm
        rcases hm with hm | hm <;>
          exact absurd (hc7.symm.trans hm) (by decide)
      · intro hnm
        exact absurd (by rw [hc7]; decide) hnm
    rw [if_neg hc7] at h
    by_cases hc8 : t = 0x0A
    · rw [if_pos hc8] at h
      obtain ⟨⟨x, bb1⟩, hD, hfin⟩ := bind_ok_inv h
      obtain ⟨hu, hb⟩ := prod_ok_snd hfin
      obtain ⟨hdrop, hle⟩ := eidr_ok hD
      have hlen : bb.length = 96 + bb'.length := by
        have hd : (List.drop 96 bb).length = bb.length - 96 := by simp
        rw [hb, hdrop, hd]
        omega
      refine ⟨?_, fun _ => ⟨by rw [hb, hdrop], hlen⟩, ?_, ?_⟩
      · intro hm
        exact absurd hm (by rw [hc8]; decide)
      · intro hm
        rcases hm with hm | hm <;>
          exact absurd (hc8.symm.trans hm) (by decide)
      · intro hnm
        exact absurd (by rw [hc8]; decide) hnm
    rw [if_neg hc8] at h
    by_cases hc9 : t = 0x0B
    · rw [if_pos hc9] at h
      obtain ⟨⟨x, bb1⟩, hD, hfin⟩ := bind_ok_inv h
      obtain ⟨hu, hb⟩ := prod_ok_snd hfin
      obtain ⟨h4, hdrop, hle⟩ := atsc_ok hD
      have hlen : bb.length = 8 * l + bb'.length := by
        have hd : (List.drop (8 * l) bb).length = bb.length - 8 * l := by
          simp
        rw [hb, hdrop, hd]
        omega
      refine ⟨?_, ?_, fun _ => ⟨h4, by rw [hb, hdrop], hlen⟩, ?_⟩
      · intro hm
        exact absurd hm (by rw [hc9]; decide)
      · intro hm
        exact absurd (hc9.symm.trans hm) (by decide)
      · intro hnm
        exact absurd (by rw [hc9]; decide) hnm
    rw [if_neg hc9] at h
    by_cases hc10 : t = 0x0C
    · rw [if_pos hc10] at h
      obtain ⟨⟨x, bb1⟩, hD, hfin⟩ := bind_ok_inv h
      obtain ⟨hu, hb⟩ := prod_ok_snd hfin
      obtain ⟨h4, hdrop, hle⟩ := mpu_ok hD
      have hlen : bb.length = 8 * l + bb'.length := by
        have hd : (List.drop (8 * l) bb).length = bb.length - 8 * l := by
          simp
        rw [hb, hdrop, hd]
        omega
      refine ⟨?_, ?_, fun _ => ⟨h4, by rw [hb, hdrop], hlen⟩, ?_⟩
      · intro hm
        exact absurd hm (by rw [hc10]; decide)
      · intro hm
        exact absurd (hc10.symm.trans hm) (by decide)
      · intro hnm
        exact absurd (by rw [hc10]; decide) hnm
    rw [if_neg hc10] at h
    by_cases hc11 : t = 0x0D
    · rw [if_pos hc11] at h
      refine ⟨?_, ?_, ?_, ?_⟩
      · intro hm
        exact absurd hm (by rw [hc11]; decide)
      · intro hm
        exact absurd (hc11.symm.trans hm) (by decide)
      · intro hm
        rcases hm with hm | hm <;>
          exact absurd (hc11.symm.trans hm) (by decide)
      · intro hnm
        exact absurd (by rw [hc11]; decide) hnm
    rw [if_neg hc11] at h
    by_cases hc12 : t = 0x0E
    · rw [if_pos hc12] at h
      obtain ⟨⟨x, bb1⟩, hD, hfin⟩ := bind_ok_inv h
      obtain ⟨hu, hb⟩ := prod_ok_snd hfin
      obtain ⟨hdrop, hle⟩ := uri_ok hD
      have hlen : bb.length = 8 * l + bb'.length := by
        have hd : (List.drop (8 * l) bb).length = bb.length - 8 * l := by
          simp
        rw [hb, hdrop, hd]
        omega
      refine ⟨fun _ => ⟨by rw [hb, hdrop], hlen⟩, ?_, ?_, ?_⟩
      · intro hm
        exact absurd (hc12.symm.trans hm) (by decide)
      · intro hm
        rcases hm with hm | hm <;>
          exact absurd (hc12.symm.trans hm) (by decide)
      · intro hnm
        exact absurd (by rw [hc12]; decide) hnm
    rw [if_neg hc12] at h
    by_cases hc13 : t = 0x0F
    · rw [if_pos hc13] at h
      obtain ⟨⟨x, bb1⟩, hD, hfin⟩ := bind_ok_inv h
      obtain ⟨hu, hb⟩ := prod_ok_snd hfin
      obtain ⟨hdrop, hle⟩ := uri_ok hD
      have hlen : bb.length = 8 * l + bb'.length := by
        have hd : (List.drop (8 * l) bb).length = bb.length - 8 * l := by
          simp
        rw [hb, hdrop, hd]
        omega
      refine ⟨fun _ => ⟨by rw [hb, hdrop], hlen⟩, ?_, ?_, ?_⟩
      · intro hm
        exact absurd (hc13.symm.trans hm) (by decide)
      · intro hm
        rcases hm with hm | hm <;>
          exact absurd (hc13.symm.trans hm) (by decide)
      · intro hnm
        exact absurd (by rw [hc13]; decide) hnm
    rw [if_neg hc13] at h
    refine ⟨?_, ?_, ?_, fun _ => prod_ok_snd h⟩
    · intro hm
      simp at hm
      rcases hm with hm|hm|hm|hm|hm|hm|hm|hm|hm|hm <;> simp_all
    · intro hm
      exact absurd hm hc8
    · intro hm
      rcases hm with hm | hm
      · exact absurd hm hc9
      · exact absurd hm hc10

/-- Witness for the amended C3 at a URI entry of length 1. -/
theorem c3_dispatch_consumption_witness :
    (bytesToBits [0x41] : BitBin).length = 8 * 1 + ([] : BitBin).length := by
  have h0 := dispatch_uri 4 1 [0x41] [] rfl
  rw [List.append_nil] at h0
  exact ((c3_dispatch_consumption (4 + 1) (bytesToBits [0x41]) 0x0F 1
      (uriUpid [0x41]) [] h0).1 (by decide)).2

theorem set_flags_cancel {d : SegmentationDescriptor} {bb : BitBin}
    {d' : SegmentationDescriptor} {bb' : BitBin}
    (h : d.set_flags bb = .ok (d', bb')) :
    d'.segmentation_event_cancel_indicator
      = d.segmentation_event_cancel_indicator := by
  unfold SegmentationDescriptor.set_flags at h
  obtain ⟨⟨b0, bb1⟩, h0, h⟩ := bind_ok_inv h
  obtain ⟨⟨b1, bb2⟩, h1, h⟩ := bind_ok_inv h
  obtain ⟨⟨b2, bb3⟩, h2, h⟩ := bind_ok_inv h
  cases b2 with
  | true =>
    obtain ⟨bb4, h3, h⟩ := bind_ok_inv h
    rw [(prod_ok_snd h).1]
  | false =>
    obtain ⟨⟨b3, bb4⟩, h3, h⟩ := bind_ok_inv h
    obtain ⟨⟨b4, bb5⟩, h4, h⟩ := bind_ok_inv h
    obtain ⟨⟨b5, bb6⟩, h5, h⟩ := bind_ok_inv h
    obtain ⟨⟨v, bb7⟩, h6, h⟩ := bind_ok_inv h
    rw [(prod_ok_snd h).1]

theorem set_components_cancel {d : SegmentationDescriptor} {bb : BitBin}
    {d' : SegmentationDescriptor} {bb' : BitBin}
    (h : d.set_components bb = .ok (d', bb')) :
    d'.segmentation_event_cancel_indicator
      = d.segmentation_event_cancel_indicator := by
  unfold SegmentationDescriptor.set_components at h
  obtain ⟨⟨c, bb1⟩, h0, h⟩ := bind_ok_inv h
  obtain ⟨⟨comps, bb2⟩, h1, h⟩ := bind_ok_inv h
  rw [(prod_ok_snd h).1]

theorem set_segments_cancel {d : SegmentationDescriptor} {bb : BitBin}
    {d' : SegmentationDescriptor} {bb' : BitBin}
    (h : d.set_segments bb = .ok (d', bb')) :
    d'.segmentation_event_cancel_indicator
      = d.segmentation_event_cancel_indicator := by
  unfold SegmentationDescriptor.set_segments at h
  obtain ⟨⟨sn, bb1⟩, h0, h⟩ := bind_ok_inv h
  obtain ⟨⟨se, bb2⟩, h1, h⟩ := bind_ok_inv h
  dsimp only [] at h
  split at h
  · split at h
    · obtain ⟨⟨x1, bb3⟩, h2, h⟩ := bind_ok_inv h
      obtain ⟨⟨x2, bb4⟩, h3, h⟩ := bind_ok_inv h
      rw [(prod_ok_snd h).1]
    · rw [(prod_ok_snd h).1]
  · rw [(prod_ok_snd h).1]

theorem set_segmentation_cancel {d : SegmentationDescriptor} {bb : BitBin}
    {d' : SegmentationDescriptor} {bb' : BitBin}
    (h : d.set_segmentation bb = .ok (d', bb')) :
    d'.segmentation_event_cancel_indicator
      = d.segmentation_event_cancel_indicator := by
  unfold SegmentationDescriptor.set_segmentation at h
  dsimp only [] at h
  rcases hdf : d.segmentation_duration_flag with _ | b
  · rw [hdf] at h
    obtain ⟨⟨d1, bb1⟩, hy, h⟩ := bind_ok_inv h
    have hc1 : d1.segmentation_event_cancel_indicator
        = d.segmentation_event_cancel_indicator := by
      rw [(prod_ok_snd hy).1]
    obtain ⟨⟨ut, bb2⟩, h1, h⟩ := bind_ok_inv h
    obtain ⟨⟨ul, bb3⟩, h2, h⟩ := bind_ok_inv h
    obtain ⟨⟨u, bb4⟩, h3, h⟩ := bind_ok_inv h
    obtain ⟨⟨tid, bb5⟩, h4, h⟩ := bind_ok_inv h
    rcases hlk : table22.lookup tid with _ | msg <;> rw [hlk] at h
    · rw [(prod_ok_snd h).1]
      exact hc1
    · rw [set_segments_cancel h]
      exact hc1
  · cases b with
    | false =>
      rw [hdf] at h
      obtain ⟨⟨d1, bb1⟩, hy, h⟩ := bind_ok_inv h
      have hc1 : d1.segmentation_event_cancel_indicator
          = d.segmentation_event_cancel_indicator := by
        rw [(prod_ok_snd hy).1]
      obtain ⟨⟨ut, bb2⟩, h1, h⟩ := bind_ok_inv h
      obtain ⟨⟨ul, bb3⟩, h2, h⟩ := bind_ok_inv h
      obtain ⟨⟨u, bb4⟩, h3, h⟩ := bind_ok_inv h
      obtain ⟨⟨tid, bb5⟩, h4, h⟩ := bind_ok_inv h
      rcases hlk : table22.lookup tid with _ | msg <;> rw [hlk] at h
      · rw [(prod_ok_snd h).1]
        exact hc1
      · rw [set_segments_cancel h]
        exact hc1
    | true =>
      rw [hdf] at h
      obtain ⟨⟨q, bbq⟩, hq, h⟩ := bind_ok_inv h
      obtain ⟨⟨d1, bb1⟩, hy, h⟩ := bind_ok_inv h
      have hc1 : d1.segmentation_event_cancel_indicator
          = d.segmentation_event_cancel_indicator := by
        rw [(prod_ok_snd hy).1]
      obtain ⟨⟨ut, bb2⟩, h1, h⟩ := bind_ok_inv h
      obtain ⟨⟨ul, bb3⟩, h2, h⟩ := bind_ok_inv h
      obtain ⟨⟨u, bb4⟩, h3, h⟩ := bind_ok_inv h
      obtain ⟨⟨tid, bb5⟩, h4, h⟩ := bind_ok_inv h
      rcases hlk : table22.lookup tid with _ | msg <;> rw [hlk] at h
      · rw [(prod_ok_snd h).1]
        exact hc1
      · rw [set_segments_cancel h]
        exact hc1

/-- C5: when the segmentation_event_cancel_indicator decodes as true, the
segmentation decode stops right after the 32-bit identifier, the 32-bit
event id, the cancel bit and the 7 reserved bits: every field of the
flag, component, duration, upid, type and segment steps keeps its initial
unset value, and the cursor stops 72 bits into the payload. -/
theorem c5_cancel_stops (bites : List Nat) (d : SegmentationDescriptor)
    (bb' : BitBin)
    (h : SegmentationDescriptor.full bites = .ok (d, bb'))
    (hc : d.segmentation_event_cancel_indicator = some true) :
    d.program_segmentation_flag = none ∧
    d.segmentation_duration_flag = none ∧
    d.delivery_not_restricted_flag = none ∧
    d.web_delivery_allowed_flag = none ∧
    d.no_regional_blackout_flag = none ∧
    d.archive_allowed_flag = none ∧
    d.device_restrictions = none ∧
    d.component_count = none ∧
    d.components = [] ∧
    d.segmentation_duration = none ∧
    d.segmentation_upid_type = none ∧
    d.segmentation_upid_length = none ∧
    d.segmentation_upid = none ∧
    d.segmentation_type_id = none ∧
    d.segmentation_message = none ∧
    d.segment_num = none ∧
    d.segments_expected = none ∧
    d.sub_segment_num = none ∧
    d.sub_segments_expected = none ∧
    bb' = (bytesToBits (bites.drop 2)).drop 72 := by
  rcases bites with _ | ⟨t, _ | ⟨l, rest⟩⟩
  · rw [show SegmentationDescriptor.full [] = .error Err.bufferUnderrun
      from rfl] at h
    exact absurd h (by simp)
  · rw [show SegmentationDescriptor.full [t] = .error Err.indexError
      from rfl] at h
    exact absurd h (by simp)
  · unfold SegmentationDescriptor.full at h
    obtain ⟨⟨d0, rest0⟩, hinit, hdec⟩ := bind_ok_inv h
    clear h
    obtain ⟨hd0, hrest0⟩ := prod_ok_snd
      (hinit : Except.ok ({ tag := some t, descriptor_length := some l },
        rest) = .ok (d0, rest0))
    subst hd0
    subst hrest0
    unfold SegmentationDescriptor.decode at hdec
    dsimp only [] at hdec
    obtain ⟨⟨ids, bb1⟩, hid, h⟩ := bind_ok_inv hdec
    obtain ⟨⟨eid, bb2⟩, heid, h⟩ := bind_ok_inv h
    obtain ⟨⟨cb, bb3⟩, hcb, h⟩ := bind_ok_inv h
    obtain ⟨bb4, hfw, h⟩ := bind_ok_inv h
    have e1 := (asdecodedhex_ok hid).1
    have e2 := (ashex_ok heid).1
    have e3 := asflag_ok hcb
    have e4 := (forward_ok hfw).1
    dsimp only [] at e1 e2 e3 e4
    cases cb with
    | true =>
      obtain ⟨hd, hbb⟩ := prod_ok_snd h
      subst hd
      refine ⟨rfl, rfl, rfl, rfl, rfl, rfl, rfl, rfl, rfl, rfl, rfl, rfl,
        rfl, rfl, rfl, rfl, rfl, rfl, rfl, ?_⟩
      show bb' = (bytesToBits rest0).drop 72
      have e2' : bb2 = (bytesToBits rest0).drop 64 := by
        rw [e2, e1, List.drop_drop]
      have e5 : (bytesToBits rest0).drop 72
          = ((bytesToBits rest0).drop 64).drop 8 := by
        rw [List.drop_drop]
      rw [hbb, e4, e5, ← e2', e3]
      rfl
    | false =>
      exfalso
      obtain ⟨⟨d5, bb5⟩, hfl, h⟩ := bind_ok_inv h
      have h5 : d5.segmentation_event_cancel_indicator = some false := by
        rw [set_flags_cancel hfl]
      rcases hp : d5.program_segmentation_flag with _ | pb
      · rw [hp] at h
        obtain ⟨⟨d6, bb6⟩, hpure, h⟩ := bind_ok_inv h
        have h6 : d6.segmentation_event_cancel_indicator = some false := by
          rw [(prod_ok_snd hpure).1]
          exact h5
        have h7 := set_segmentation_cancel h
        rw [hc, h6] at h7
        exact Option.noConfusion h7 (fun hb => Bool.noConfusion hb)
      · cases pb with
        | false =>
          rw [hp] at h
          obtain ⟨⟨d6, bb6⟩, hcmp, h⟩ := bind_ok_inv h
          have h6 : d6.segmentation_event_cancel_indicator = some false := by
            rw [set_components_cancel hcmp]
            exact h5
          have h7 := set_segmentation_cancel h
          rw [hc, h6] at h7
          exact Option.noConfusion h7 (fun hb => Bool.noConfusion hb)
        | true =>
          rw [hp] at h
          obtain ⟨⟨d6, bb6⟩, hpure, h⟩ := bind_ok_inv h
          have h6 : d6.segmentation_event_cancel_indicator = some false := by
            rw [(prod_ok_snd hpure).1]
            exact h5
          have h7 := set_segmentation_cancel h
          rw [hc, h6] at h7
          exact Option.noConfusion h7 (fun hb => Bool.noConfusion hb)

/-- The decoded state of the cancelled segmentation example. -/
def c5W : SegmentationDescriptor :=
  { tag := some 2, descriptor_length := some 9, identifier := some "CUEI",
    segmentation_event_id := some "0x1",
    segmentation_event_cancel_indicator := some true }

/-- Witness for C5 on a cancelled segmentation descriptor. -/
theorem c5_cancel_stops_witness :
    SegmentationDescriptor.full
      [0x02, 0x09, 0x43, 0x55, 0x45, 0x49, 0x00, 0x00, 0x00, 0x01, 0x80]
      = .ok (c5W, []) ∧
    c5W.program_segmentation_flag = none ∧
    c5W.segmentation_upid = none ∧
    c5W.segment_num = none := by
  have h : SegmentationDescriptor.full
      [0x02, 0x09, 0x43, 0x55, 0x45, 0x49, 0x00, 0x00, 0x00, 0x01, 0x80]
      = .ok (c5W, []) := by rfl
  refine ⟨h, ?_, ?_, ?_⟩
  · exact (c5_cancel_stops _ c5W [] h rfl).1
  · exact (c5_cancel_stops _ c5W [] h rfl).2.2.2.2.2.2.2.2.2.2.2.2.1
  · exact (c5_cancel_stops _ c5W [] h
      rfl).2.2.2.2.2.2.2.2.2.2.2.2.2.2.2.1

/-- C6: _set_flags reads the three leading 1-bit flags; when
delivery_not_restricted_flag is true it consumes exactly 5 reserved bits
in place of the sub-flags, leaving web_delivery_allowed_flag,
no_regional_blackout_flag, archive_allowed_flag and device_restrictions
untouched, and when it is false it reads those three 1-bit flags and a
2-bit device restrictions code mapped through the 4-entry table20; in
both cases exactly 8 bits are consumed. -/
theorem c6_delivery_flags (d : SegmentationDescriptor) (bb : BitBin)
    (d' : SegmentationDescriptor) (bb' : BitBin)
    (h : d.set_flags bb = .ok (d', bb')) :
    8 ≤ bb.length ∧ bb' = bb.drop 8 ∧
    d'.program_segmentation_flag = some (bb.getD 0 false) ∧
    d'.segmentation_duration_flag = some (bb.getD 1 false) ∧
    d'.delivery_not_restricted_flag = some (bb.getD 2 false) ∧
    (bb.getD 2 false = true →
      d'.web_delivery_allowed_flag = d.web_delivery_allowed_flag ∧
      d'.no_regional_blackout_flag = d.no_regional_blackout_flag ∧
      d'.archive_allowed_flag = d.archive_allowed_flag ∧
      d'.device_restrictions = d.device_restrictions) ∧
    (bb.getD 2 false = false →
      d'.web_delivery_allowed_flag = some (bb.getD 3 false) ∧
      d'.no_regional_blackout_flag = some (bb.getD 4 false) ∧
      d'.archive_allowed_flag = some (bb.getD 5 false) ∧
      d'.device_restrictions
        = some (table20.getD (bitsToNat ((bb.drop 6).take 2)) "")) := by
  unfold SegmentationDescriptor.set_flags at h
  obtain ⟨⟨b0, bb1⟩, h0, k1⟩ := bind_ok_inv h
  obtain ⟨⟨b1, bb2⟩, h1, k2⟩ := bind_ok_inv k1
  obtain ⟨⟨b2, bb3⟩, h2, k3⟩ := bind_ok_inv k2
  have e0 := asflag_ok h0
  have e1 := asflag_ok h1
  have e2 := asflag_ok h2
  subst e0
  subst e1
  subst e2
  cases b2 with
  | true =>
    obtain ⟨bb4, h3, k4⟩ := bind_ok_inv k3
    obtain ⟨e4, hlen4⟩ := forward_ok h3
    obtain ⟨hd, hbb⟩ := prod_ok_snd k4
    subst hd
    refine ⟨by simp; omega, ?_, rfl, rfl, rfl, fun _ => ⟨rfl, rfl, rfl, rfl⟩,
      fun hff => Bool.noConfusion hff⟩
    rw [hbb, e4]
    rfl
  | false =>
    obtain ⟨⟨b3, bb4⟩, h3, k4⟩ := bind_ok_inv k3
    obtain ⟨⟨b4, bb5⟩, h4, k5⟩ := bind_ok_inv k4
    obtain ⟨⟨b5, bb6⟩, h5, k6⟩ := bind_ok_inv k5
    obtain ⟨⟨v, bb7⟩, h6, k7⟩ := bind_ok_inv k6
    have e3 := asflag_ok h3
    have e4 := asflag_ok h4
    have e5 := asflag_ok h5
    have hv := asint_ok_val h6
    obtain ⟨-, -, e6, hlen6⟩ := asint_ok h6
    subst e3
    subst e4
    subst e5
    obtain ⟨hd, hbb⟩ := prod_ok_snd k7
    subst hd
    refine ⟨by simp; omega, ?_, rfl, rfl, rfl,
      fun htt => Bool.noConfusion htt, fun _ => ⟨rfl, rfl, rfl, ?_⟩⟩
    · rw [hbb, e6]
      rfl
    · rw [hv]
      rfl

/-- The decoded state of the delivery-not-restricted flags example. -/
def c6W : SegmentationDescriptor :=
  { program_segmentation_flag := some true,
    segmentation_duration_flag := some false,
    delivery_not_restricted_flag := some true }

/-- Witness for C6 on a flag byte with delivery_not_restricted set. -/
theorem c6_delivery_flags_witness :
    c6W.delivery_not_restricted_flag = some true ∧
    c6W.web_delivery_allowed_flag = none ∧
    c6W.device_restrictions = none := by
  have h : SegmentationDescriptor.set_flags {} (bytesToBits [0xA0])
      = .ok (c6W, []) := by rfl
  have hth := c6_delivery_flags {} (bytesToBits [0xA0]) c6W [] h
  refine ⟨?_, ?_, ?_⟩
  · exact hth.2.2.2.2.1
  · exact (hth.2.2.2.2.2.1 (by rfl)).1
  · exact (hth.2.2.2.2.2.1 (by rfl)).2.2.2

theorem subSegmentBearing_iff (tid : Nat) :
    subSegmentBearing (some tid) = true ↔
      (tid = 0x34 ∨ tid = 0x36 ∨ tid = 0x38 ∨ tid = 0x3A) := by
  unfold subSegmentBearing
  simp [Option.some.injEq]
  tauto

/-- C2 amended: after the segment_num and segments_expected reads, the
sub-segment fields are read from the buffer exactly when the
segmentation_type_id is one of the four sub-segment-bearing codes and at
least 16 unconsumed bits remain at that point; when the type id is in
that set but fewer than 16 bits remain, both fields are set to 0; when
the type id is outside that set, both fields are left untouched, so a
field that was unset stays unset rather than becoming 0. -/
theorem c2_sub_segment_fields (d : SegmentationDescriptor) (bb : BitBin)
    (d' : SegmentationDescriptor) (bb' : BitBin) (tid : Nat)
    (htid : d.segmentation_type_id = some tid)
    (h : d.set_segments bb = .ok (d', bb')) :
    d'.segment_num = some (bitsToNat (bb.take 8)) ∧
    d'.segments_expected = some (bitsToNat ((bb.drop 8).take 8)) ∧
    ((tid = 0x34 ∨ tid = 0x36 ∨ tid = 0x38 ∨ tid = 0x3A) →
      (32 ≤ bb.length →
        d'.sub_segment_num = some (bitsToNat ((bb.drop 16).take 8)) ∧
        d'.sub_segments_expected = some (bitsToNat ((bb.drop 24).take 8)) ∧
        bb' = bb.drop 32) ∧
      (bb.length < 32 →
        d'.sub_segment_num = some 0 ∧ d'.sub_segments_expected = some 0 ∧
        bb' = bb.drop 16)) ∧
    (¬(tid = 0x34 ∨ tid = 0x36 ∨ tid = 0x38 ∨ tid = 0x3A) →
      d'.sub_segment_num = d.sub_segment_num ∧
      d'.sub_segments_expected = d.sub_segments_expected ∧
      bb' = bb.drop 16) := by
  unfold SegmentationDescriptor.set_segments at h
  obtain ⟨⟨sn, bb1⟩, h0, k1⟩ := bind_ok_inv h
  obtain ⟨⟨se, bb2⟩, h1, k2⟩ := bind_ok_inv k1
  have hv0 := asint_ok_val h0
  have hv1 := asint_ok_val h1
  obtain ⟨-, -, e0, hlen0⟩ := asint_ok h0
  obtain ⟨-, -, e1, hlen1⟩ := asint_ok h1
  have E2 : bb2 = bb.drop 16 := by simp [e1, e0, List.drop_drop]
  have L1 : bb1.length = bb.length - 8 := by rw [e0]; simp
  have L2 : bb2.length = bb.length - 16 := by rw [E2]; simp
  have hsn : sn = bitsToNat (bb.take 8) := hv0
  have hse : se = bitsToNat ((bb.drop 8).take 8) := by rw [hv1, e0]
  dsimp only [] at k2
  rw [htid] at k2
  rcases hB : subSegmentBearing (some tid) with _ | _
  · rw [hB] at k2
    obtain ⟨hd, hbb⟩ := prod_ok_snd k2
    subst hd
    have hnot : ¬(tid = 0x34 ∨ tid = 0x36 ∨ tid = 0x38 ∨ tid = 0x3A) := by
      intro hm
      have := (subSegmentBearing_iff tid).mpr hm
      rw [hB] at this
      exact Bool.noConfusion this
    refine ⟨by rw [hsn], by rw [hse], fun hm => absurd hm hnot,
      fun _ => ⟨rfl, rfl, ?_⟩⟩
    rw [hbb, E2]
  · rw [hB] at k2
    have hmem := (subSegmentBearing_iff tid).mp hB
    by_cases h16 : 16 ≤ bb2.length
    · rw [if_pos h16] at k2
      obtain ⟨⟨x1, bb3⟩, h2, k3⟩ := bind_ok_inv k2
      obtain ⟨⟨x2, bb4⟩, h3, k4⟩ := bind_ok_inv k3
      have hv2 := asint_ok_val h2
      have hv3 := asint_ok_val h3
      obtain ⟨-, -, e2, hlen2⟩ := asint_ok h2
      obtain ⟨-, -, e3, hlen3⟩ := asint_ok h3
      have E3 : bb3 = bb.drop 24 := by simp [e2, E2, List.drop_drop]
      have E4 : bb4 = bb.drop 32 := by simp [e3, E3, List.drop_drop]
      obtain ⟨hd, hbb⟩ := prod_ok_snd k4
      subst hd
      refine ⟨by rw [hsn], by rw [hse], fun _ => ⟨fun _ => ⟨?_, ?_, ?_⟩,
        fun hlt => absurd h16 (by omega)⟩, fun hnm => absurd hmem hnm⟩
      · rw [hv2, E2]
      · rw [hv3, E3]
      · rw [hbb, E4]
    · rw [if_neg h16] at k2
      obtain ⟨hd, hbb⟩ := prod_ok_snd k2
      subst hd
      refine ⟨by rw [hsn], by rw [hse], fun _ => ⟨fun h32 => absurd h16
        (by omega), fun _ => ⟨rfl, rfl, ?_⟩⟩, fun hnm => absurd hmem hnm⟩
      rw [hbb, E2]

/-- The decoded state of the segmentation example with type id 0x35. -/
def c2X : SegmentationDescriptor :=
  { tag := some 2, descriptor_length := some 0x0F,
    identifier := some "CUEI", segmentation_event_id := some "0x1",
    segmentation_event_cancel_indicator := some false,
    program_segmentation_flag := some true,
    segmentation_duration_flag := some false,
    delivery_not_restricted_flag := some true,
    segmentation_upid_type := some 0, segmentation_upid_length := some 0,
    segmentation_upid := some (.str ""),
    segmentation_type_id := some 0x35,
    segmentation_message := some "Provider Placement Opportunity End",
    segment_num := some 1, segments_expected := some 2 }

set_option maxRecDepth 10000 in
/-- C2 counterexample: a full segmentation decode with cancel false and
the recognized type id 0x35, which is outside the four
sub-segment-bearing codes, leaves sub_segment_num unset rather than
setting it to 0, refuting the claim that in every other case both fields
are set to 0. -/
theorem c2_counterexample :
    SegmentationDescriptor.full
      [0x02, 0x0F, 0x43, 0x55, 0x45, 0x49, 0x00, 0x00, 0x00, 0x01, 0x00,
        0xA0, 0x00, 0x00, 0x35, 0x01, 0x02] = .ok (c2X, []) ∧
    c2X.segmentation_event_cancel_indicator = some false ∧
    c2X.segmentation_type_id = some 0x35 ∧
    c2X.segmentation_message
      = some "Provider Placement Opportunity End" ∧
    c2X.sub_segment_num = none ∧
    ¬ (c2X.sub_segment_num = some 0 ∧ c2X.sub_segments_expected = some 0)
    := by
  refine ⟨by rfl, rfl, rfl, rfl, rfl, ?_⟩
  intro hcontra
  exact Option.noConfusion hcontra.1

/-- The state of the sub-segment read example with type id 0x34. -/
def c2W : SegmentationDescriptor :=
  { segmentation_type_id := some 0x34, segment_num := some 1,
    segments_expected := some 2, sub_segment_num := some 3,
    sub_segments_expected := some 4 }

/-- Witness for the amended C2 at type id 0x34 with 32 buffer bits. -/
theorem c2_sub_segment_fields_witness :
    c2W.sub_segment_num = some 3 ∧ c2W.sub_segments_expected = some 4 := by
  have h : SegmentationDescriptor.set_segments
      { segmentation_type_id := some 0x34 } (bytesToBits [1, 2, 3, 4])
      = .ok (c2W, []) := by rfl
  have hth := c2_sub_segment_fields { segmentation_type_id := some 0x34 }
    (bytesToBits [1, 2, 3, 4]) c2W [] 0x34 rfl h
  have h32 : 32 ≤ (bytesToBits [1, 2, 3, 4] : BitBin).length := by
    rw [bytesToBits_length]
    norm_num
  refine ⟨?_, ?_⟩
  · exact ((hth.2.2.1 (Or.inl rfl)).1 h32).1
  · exact ((hth.2.2.1 (Or.inl rfl)).1 h32).2.1

theorem triple_ok_inv {α β γ : Type} {x a : α} {y b : β} {z c : γ}
    (h : (Except.ok (x, y, z) : Except Err (α × β × γ)) = .ok (a, b, c)) :
    a = x ∧ b = y ∧ c = z := by
  have h1 := congrArg (fun w => match w with | Except.ok p => p.1 | _ => x) h
  have h2 := congrArg (fun w => match w with | Except.ok p => p.2.1 | _ => y) h
  have h3 := congrArg
    (fun w => match w with | Except.ok p => p.2.2 | _ => z) h
  simp at h1 h2 h3
  exact ⟨h1.symm, h2.symm, h3.symm⟩

theorem base_encode_ok {t l : Option Nat} {i : String} {nb : NBin}
    {r : Option NBin}
    (h : SpliceDescriptor.encode t l = .ok (i, nb, r)) :
    i = "0x43554549" ∧ r = some nb := by
  cases t with
  | none =>
    rw [show SpliceDescriptor.encode none l = .error Err.typeError from by
      cases l <;> rfl] at h
    exact absurd h (by simp)
  | some tv =>
    cases l with
    | none =>
      rw [show SpliceDescriptor.encode (some tv) none
          = .error Err.typeError from rfl] at h
      exact absurd h (by simp)
    | some lv =>
      obtain ⟨hi, hnb, hr⟩ := triple_ok_inv h
      exact ⟨hi, by rw [hr, hnb]⟩

/-- C4 amended: for each of the four simple variants, a successful encode
returns a state equal to the input state except that the identifier
attribute is overwritten with the constant hex string 0x43554549; every
other attribute is unchanged, so encode is not a pure projection of the
decoded state. -/
theorem c4_encode_overwrites_identifier :
    (∀ (d d2 : AvailDescriptor) (nb : NBin) (r : Option NBin),
      d.encode = .ok (d2, nb, r) →
      d2 = { d with identifier := some "0x43554549" }) ∧
    (∀ (d d2 : DtmfDescriptor) (nb : NBin) (r : Option NBin),
      d.encode = .ok (d2, nb, r) →
      d2 = { d with identifier := some "0x43554549" }) ∧
    (∀ (d d2 : TimeDescriptor) (nb : NBin) (r : Option NBin),
      d.encode = .ok (d2, nb, r) →
      d2 = { d with identifier := some "0x43554549" }) ∧
    (∀ (d d2 : AudioDescriptor) (nb : NBin) (r : Option NBin),
      d.encode = .ok (d2, nb, r) →
      d2 = { d with identifier := some "0x43554549" }) := by
  refine ⟨?_, ?_, ?_, ?_⟩ <;> intro d d2 nb r h
  · unfold AvailDescriptor.encode at h
    obtain ⟨⟨i, nb0, r0⟩, hB, k⟩ := bind_ok_inv h
    obtain ⟨hi, -⟩ := base_encode_ok hB
    subst hi
    rcases hpv : d.provider_avail_id with _ | v <;> rw [hpv] at k
    · exact absurd k (by simp)
    · exact (triple_ok_inv k).1
  · unfold DtmfDescriptor.encode at h
    obtain ⟨⟨i, nb0, r0⟩, hB, k⟩ := bind_ok_inv h
    obtain ⟨hi, -⟩ := base_encode_ok hB
    subst hi
    rcases hp : d.preroll with _ | pv <;>
      rcases hdc : d.dtmf_count with _ | cv <;> rw [hp, hdc] at k
    · exact absurd k (by simp)
    · exact absurd k (by simp)
    · exact absurd k (by simp)
    · obtain ⟨nb1, hloop, k⟩ := bind_ok_inv k
      exact (triple_ok_inv k).1
  · unfold TimeDescriptor.encode at h
    obtain ⟨⟨i, nb0, r0⟩, hB, k⟩ := bind_ok_inv h
    obtain ⟨hi, -⟩ := base_encode_ok hB
    subst hi
    rcases hs : d.tai_seconds with _ | sv <;>
      rcases hns : d.tai_ns with _ | nsv <;>
      rcases ho : d.utc_offset with _ | ov <;> rw [hs, hns, ho] at k
    · exact absurd k (by simp)
    · exact absurd k (by simp)
    · exact absurd k (by simp)
    · exact absurd k (by simp)
    · exact absurd k (by simp)
    · exact absurd k (by simp)
    · exact absurd k (by simp)
    · exact (triple_ok_inv k).1
  · unfold AudioDescriptor.encode at h
    obtain ⟨⟨i, nb0, r0⟩, hB, k⟩ := bind_ok_inv h
    obtain ⟨hi, -⟩ := base_encode_ok hB
    subst hi
    rcases hac : d.audio_count with _ | cv <;> rw [hac] at k
    · exact absurd k (by simp)
    · obtain ⟨nb1, hloop, k⟩ := bind_ok_inv k
      exact (triple_ok_inv k).1

/-- The decoded state of the time descriptor example. -/
def c4X : TimeDescriptor :=
  { tag := some 3, descriptor_length := some 16, identifier := some "CUEI",
    tai_seconds := some 0x010203040506, tai_ns := some 0x0708090A,
    utc_offset := some 0x0B0C }

/-- The state after encoding the time descriptor example. -/
def c4X2 : TimeDescriptor :=
  { tag := some 3, descriptor_length := some 16,
    identifier := some "0x43554549",
    tai_seconds := some 0x010203040506, tai_ns := some 0x0708090A,
    utc_offset := some 0x0B0C }

set_option maxRecDepth 10000 in
/-- C4 counterexample: a decoded time descriptor holds the identifier
read during decode, here CUEI, but after encode the state attribute has
been overwritten with the hex string 0x43554549, so encode does not
leave every attribute unchanged. -/
theorem c4_counterexample :
    TimeDescriptor.full [0x03, 0x10, 0x43, 0x55, 0x45, 0x49,
      1, 2, 3, 4, 5, 6, 7, 8, 9, 10, 11, 12] = .ok (c4X, []) ∧
    c4X.identifier = some "CUEI" ∧
    TimeDescriptor.encode c4X = .ok (c4X2,
      ⟨bytesToBits [0x03, 0x10, 0x43, 0x55, 0x45, 0x49,
        1, 2, 3, 4, 5, 6, 7, 8, 9, 10, 11, 12]⟩, none) ∧
    c4X2.identifier ≠ c4X.identifier := by
  refine ⟨by rfl, rfl, by rfl, by decide⟩

/-- Witness for the amended C4 on the time descriptor example. -/
theorem c4_encode_overwrites_identifier_witness :
    c4X2 = { c4X with identifier := some "0x43554549" } :=
  c4_encode_overwrites_identifier.2.2.1 c4X c4X2
    ⟨bytesToBits [0x03, 0x10, 0x43, 0x55, 0x45, 0x49,
      1, 2, 3, 4, 5, 6, 7, 8, 9, 10, 11, 12]⟩ none (by rfl)

/-- C10: the four variant overrides accumulate the encoded bytes through
the base-class encode but return python None, while only the base
SpliceDescriptor.encode returns the accumulated buffer. -/
theorem c10_encode_returns_none :
    (∀ (d d2 : AvailDescriptor) (nb : NBin) (r : Option NBin),
      d.encode = .ok (d2, nb, r) → r = none) ∧
    (∀ (d d2 : DtmfDescriptor) (nb : NBin) (r : Option NBin),
      d.encode = .ok (d2, nb, r) → r = none) ∧
    (∀ (d d2 : TimeDescriptor) (nb : NBin) (r : Option NBin),
      d.encode = .ok (d2, nb, r) → r = none) ∧
    (∀ (d d2 : AudioDescriptor) (nb : NBin) (r : Option NBin),
      d.encode = .ok (d2, nb, r) → r = none) ∧
    (∀ (t l : Option Nat) (i : String) (nb : NBin) (r : Option NBin),
      SpliceDescriptor.encode t l = .ok (i, nb, r) → r = some nb) := by
  refine ⟨?_, ?_, ?_, ?_, fun t l i nb r h => (base_encode_ok h).2⟩
  · intro d d2 nb r h
    unfold AvailDescriptor.encode at h
    obtain ⟨⟨i, nb0, r0⟩, hB, k⟩ := bind_ok_inv h
    rcases hpv : d.provider_avail_id with _ | v <;> rw [hpv] at k
    · exact absurd k (by simp)
    · exact (triple_ok_inv k).2.2
  · intro d d2 nb r h
    unfold DtmfDescriptor.encode at h
    obtain ⟨⟨i, nb0, r0⟩, hB, k⟩ := bind_ok_inv h
    rcases hp : d.preroll with _ | pv <;>
      rcases hdc : d.dtmf_count with _ | cv <;> rw [hp, hdc] at k
    · exact absurd k (by simp)
    · exact absurd k (by simp)
    · exact absurd k (by simp)
    · obtain ⟨nb1, hloop, k⟩ := bind_ok_inv k
      exact (triple_ok_inv k).2.2
  · intro d d2 nb r h
    unfold TimeDescriptor.encode at h
    obtain ⟨⟨i, nb0, r0⟩, hB, k⟩ := bind_ok_inv h
    rcases hs : d.tai_seconds with _ | sv <;>
      rcases hns : d.tai_ns with _ | nsv <;>
      rcases ho : d.utc_offset with _ | ov <;> rw [hs, hns, ho] at k
    · exact absurd k (by simp)
    · exact absurd k (by simp)
    · exact absurd k (by simp)
    · exact absurd k (by simp)
    · exact absurd k (by simp)
    · exact absurd k (by simp)
    · exact absurd k (by simp)
    · exact (triple_ok_inv k).2.2
  · intro d d2 nb r h
    unfold AudioDescriptor.encode at h
    obtain ⟨⟨i, nb0, r0⟩, hB, k⟩ := bind_ok_inv h
    rcases hac : d.audio_count with _ | cv <;> rw [hac] at k
    · exact absurd k (by simp)
    · obtain ⟨nb1, hloop, k⟩ := bind_ok_inv k
      exact (triple_ok_inv k).2.2

set_option maxRecDepth 10000 in
/-- Witness for C10 on the time descriptor example and the base. -/
theorem c10_encode_returns_none_witness :
    (none : Option NBin) = none ∧
    (some (⟨bytesToBits [3, 16, 0x43, 0x55, 0x45, 0x49]⟩ : NBin)
      = some (⟨bytesToBits [3, 16, 0x43, 0x55, 0x45, 0x49]⟩ : NBin)) := by
  constructor
  · exact c10_encode_returns_none.2.2.1 c4X c4X2
      ⟨bytesToBits [0x03, 0x10, 0x43, 0x55, 0x45, 0x49,
        1, 2, 3, 4, 5, 6, 7, 8, 9, 10, 11, 12]⟩ none (by rfl)
  · exact c10_encode_returns_none.2.2.2.2 (some 3) (some 16) "0x43554549"
      ⟨bytesToBits [3, 16, 0x43, 0x55, 0x45, 0x49]⟩
      (some ⟨bytesToBits [3, 16, 0x43, 0x55, 0x45, 0x49]⟩) (by rfl)

/-- C9: splice_descriptor reads the first byte as the tag; tags 0 to 4
construct and decode the matching variant, returning the populated
instance, and any other tag returns the sentinel standing for python
False without constructing or decoding anything. -/
theorem c9_splice_dispatch (t : Nat) (rest : List Nat) :
    (t = 0 → splice_descriptor (t :: rest)
      = (AvailDescriptor.full (t :: rest)).map (fun p => .availD p.1)) ∧
    (t = 1 → splice_descriptor (t :: rest)
      = (DtmfDescriptor.full (t :: rest)).map (fun p => .dtmfD p.1)) ∧
    (t = 2 → splice_descriptor (t :: rest)
      = (SegmentationDescriptor.full (t :: rest)).map
          (fun p => .segD p.1)) ∧
    (t = 3 → splice_descriptor (t :: rest)
      = (TimeDescriptor.full (t :: rest)).map (fun p => .timeD p.1)) ∧
    (t = 4 → splice_descriptor (t :: rest)
      = (AudioDescriptor.full (t :: rest)).map (fun p => .audioD p.1)) ∧
    (4 < t → splice_descriptor (t :: rest) = .ok .sentinel) := by
  unfold splice_descriptor
  refine ⟨?_, ?_, ?_, ?_, ?_, ?_⟩ <;> intro ht
  · subst ht
    rfl
  · subst ht
    rfl
  · subst ht
    rfl
  · subst ht
    rfl
  · subst ht
    rfl
  · dsimp only []
    rw [if_neg (by omega), if_neg (by omega), if_neg (by omega),
      if_neg (by omega), if_neg (by omega)]

/-- Witness for C9 on the unknown tag 7. -/
theorem c9_splice_dispatch_witness :
    splice_descriptor (7 :: [1, 2]) = .ok .sentinel :=
  (c9_splice_dispatch 7 [1, 2]).2.2.2.2.2 (by norm_num)

theorem char_toNat_ofNat (v : Nat) (hv : v < 128) :
    (Char.ofNat v).toNat = v := by
  unfold Char.ofNat
  rw [dif_pos (Or.inl (by omega : v < 0xd800))]
  rfl

theorem parseHex_cuei : parseHex "0x43554549" = 0x43554549 := by rfl

theorem cueiBits_eq :
    natToBits 0x43554549 32 = bytesToBits [0x43, 0x55, 0x45, 0x49] := by
  decide

/-- The bytes of a tagged descriptor slice with the 4 identifier bytes
replaced by the ASCII CUEI constant. -/
def forceCUEI (b : List Nat) : List Nat :=
  b.take 2 ++ [0x43, 0x55, 0x45, 0x49] ++ b.drop 6

/-- Replace n bits starting at position i with zero bits. -/
def zeroRange (l : Bits) (i n : Nat) : Bits :=
  l.take i ++ List.replicate n false ++ l.drop (i + n)

theorem zeroRange_append (X r Y : Bits) :
    zeroRange (X ++ (r ++ Y)) X.length r.length
      = X ++ (List.replicate r.length false ++ Y) := by
  unfold zeroRange
  rw [List.take_left]
  rw [show X ++ (r ++ Y) = (X ++ r) ++ Y from (List.append_assoc X r Y).symm]
  rw [List.drop_left' (by simp)]
  rw [List.append_assoc]

/-- Concatenated 8-bit encodings of a character list. -/
def charBits : List Char → Bits
  | [] => []
  | c :: cs => natToBits c.toNat 8 ++ charBits cs

/-- Concatenated 40-bit encodings of an audio component list. -/
def compBits : List AudioComp → Bits
  | [] => []
  | c :: cs => natToBits c.component_tag 8 ++ (natToBits c.iso_code 24
      ++ (natToBits c.bit_stream_mode 3 ++ (natToBits c.num_channels 4
      ++ ([c.full_srvc_audio] ++ compBits cs))))

theorem avail_encode_eval (d : AvailDescriptor) (tv lv pv : Nat)
    (ht : d.tag = some tv) (hl : d.descriptor_length = some lv)
    (hp : d.provider_avail_id = some pv) :
    d.encode = .ok ({ d with identifier := some "0x43554549" },
      ⟨natToBits tv 8 ++ (natToBits lv 8 ++ (natToBits 0x43554549 32
        ++ natToBits pv 32))⟩, none) := by
  unfold AvailDescriptor.encode SpliceDescriptor.encode
    SpliceDescriptor.encode_meta SpliceDescriptor.encode_id
  rw [ht, hl, hp]
  simp only [NBin.add_int, NBin.add_hex, parseHex_cuei, ok_bind,
    List.nil_append, List.append_assoc]

theorem time_encode_eval (d : TimeDescriptor) (tv lv sv nsv ov : Nat)
    (ht : d.tag = some tv) (hl : d.descriptor_length = some lv)
    (hs : d.tai_seconds = some sv) (hns : d.tai_ns = some nsv)
    (ho : d.utc_offset = some ov) :
    d.encode = .ok ({ d with identifier := some "0x43554549" },
      ⟨natToBits tv 8 ++ (natToBits lv 8 ++ (natToBits 0x43554549 32
        ++ (natToBits sv 48 ++ (natToBits nsv 32 ++ natToBits ov 16))))⟩,
      none) := by
  unfold TimeDescriptor.encode SpliceDescriptor.encode
    SpliceDescriptor.encode_meta SpliceDescriptor.encode_id
  rw [ht, hl, hs, hns, ho]
  simp only [NBin.add_int, NBin.add_hex, parseHex_cuei, ok_bind,
    List.nil_append, List.append_assoc]

theorem splice_encode_eval (tv lv : Nat) :
    SpliceDescriptor.encode (some tv) (some lv)
      = .ok ("0x43554549", ⟨natToBits tv 8 ++ (natToBits lv 8
          ++ natToBits 0x43554549 32)⟩,
        some ⟨natToBits tv 8 ++ (natToBits lv 8
          ++ natToBits 0x43554549 32)⟩) := by
  unfold SpliceDescriptor.encode SpliceDescriptor.encode_meta
    SpliceDescriptor.encode_id
  simp [NBin.add_int, NBin.add_hex, parseHex_cuei, ok_bind,
    List.append_assoc]

theorem dtmf_go_some (chars : List Char) (d_c r : Nat) (nb : NBin)
    (c : Char) (h : chars[d_c]? = some c) :
    DtmfDescriptor.encode_go chars d_c (r + 1) nb
      = DtmfDescriptor.encode_go chars (d_c + 1) r
          (nb.add_int c.toNat 8) := by
  conv_lhs => unfold DtmfDescriptor.encode_go
  rw [h]

theorem dtmf_encode_go_eval (cs : List Char) :
    ∀ (pre : List Char) (nb : NBin),
    DtmfDescriptor.encode_go (pre ++ cs) pre.length cs.length nb
      = .ok ⟨nb.bits ++ charBits cs⟩ := by
  induction cs with
  | nil =>
    intro pre nb
    simp [DtmfDescriptor.encode_go, charBits]
  | cons c cs ih =>
    intro pre nb
    rw [show (c :: cs).length = cs.length + 1 from rfl,
      dtmf_go_some (pre ++ c :: cs) pre.length cs.length nb c
        (by rw [List.getElem?_append_right (le_refl _)]; simp)]
    rw [show pre ++ c :: cs = (pre ++ [c]) ++ cs from by simp,
      show pre.length + 1 = (pre ++ [c]).length from by simp]
    rw [ih]
    simp [NBin.add_int, charBits, List.append_assoc]

theorem dtmf_encode_loop_eval (cs : List Char) (nb : NBin) :
    DtmfDescriptor.encode_loop cs 0 cs.length nb
      = .ok ⟨nb.bits ++ charBits cs⟩ := by
  have := dtmf_encode_go_eval cs [] nb
  simpa [DtmfDescriptor.encode_loop] using this

theorem audio_go_some (comps : List AudioComp) (a_c r : Nat) (nb : NBin)
    (c : AudioComp) (h : comps[a_c]? = some c) :
    AudioDescriptor.encode_go comps a_c (r + 1) nb
      = AudioDescriptor.encode_go comps (a_c + 1) r
          (((((nb.add_int c.component_tag 8).add_int c.iso_code
            24).add_int c.bit_stream_mode 3).add_int c.num_channels
            4).add_flag c.full_srvc_audio) := by
  conv_lhs => unfold AudioDescriptor.encode_go
  rw [h]

theorem audio_encode_go_eval (cs : List AudioComp) :
    ∀ (pre : List AudioComp) (nb : NBin),
    AudioDescriptor.encode_go (pre ++ cs) pre.length cs.length nb
      = .ok ⟨nb.bits ++ compBits cs⟩ := by
  induction cs with
  | nil =>
    intro pre nb
    simp [AudioDescriptor.encode_go, compBits]
  | cons c cs ih =>
    intro pre nb
    rw [show (c :: cs).length = cs.length + 1 from rfl,
      audio_go_some (pre ++ c :: cs) pre.length cs.length nb c
        (by rw [List.getElem?_append_right (le_refl _)]; simp)]
    rw [show pre ++ c :: cs = (pre ++ [c]) ++ cs from by simp,
      show pre.length + 1 = (pre ++ [c]).length from by simp]
    rw [ih]
    simp [NBin.add_int, NBin.add_flag, compBits, List.append_assoc]

theorem audio_encode_loop_eval (cs : List AudioComp) (nb : NBin) :
    AudioDescriptor.encode_loop cs 0 cs.length nb
      = .ok ⟨nb.bits ++ compBits cs⟩ := by
  have := audio_encode_go_eval cs [] nb
  simpa [AudioDescriptor.encode_loop] using this

theorem dtmf_encode_eval (d : DtmfDescriptor) (tv lv pv cv : Nat)
    (ht : d.tag = some tv) (hl : d.descriptor_length = some lv)
    (hp : d.preroll = some pv) (hc : d.dtmf_count = some cv)
    (hcs : d.dtmf_chars.length = cv) :
    d.encode = .ok ({ d with identifier := some "0x43554549" },
      ⟨natToBits tv 8 ++ (natToBits lv 8 ++ (natToBits 0x43554549 32
        ++ (natToBits pv 8 ++ (natToBits cv 3 ++ (List.replicate 5 false
        ++ charBits d.dtmf_chars)))))⟩, none) := by
  unfold DtmfDescriptor.encode
  rw [ht, hl, splice_encode_eval, ok_bind]
  dsimp only []
  rw [hp, hc]
  dsimp only []
  rw [show cv = d.dtmf_chars.length from hcs.symm, dtmf_encode_loop_eval,
    ok_bind]
  simp [NBin.add_int, NBin.forward, List.append_assoc]

theorem audio_encode_eval (d : AudioDescriptor) (tv lv cv : Nat)
    (ht : d.tag = some tv) (hl : d.descriptor_length = some lv)
    (hc : d.audio_count = some cv) (hcs : d.components.length = cv) :
    d.encode = .ok ({ d with identifier := some "0x43554549" },
      ⟨natToBits tv 8 ++ (natToBits lv 8 ++ (natToBits 0x43554549 32
        ++ (natToBits cv 4 ++ (List.replicate 4 false
        ++ compBits d.components))))⟩, none) := by
  unfold AudioDescriptor.encode
  rw [ht, hl, splice_encode_eval, ok_bind]
  dsimp only []
  rw [hc]
  dsimp only []
  rw [show cv = d.components.length from hcs.symm, audio_encode_loop_eval,
    ok_bind]
  simp [NBin.add_int, NBin.forward, List.append_assoc]

theorem dtmf_decode_loop_ok (n : Nat) :
    ∀ (acc : List Char) (bb : BitBin) (cs : List Char) (bb' : BitBin),
    DtmfDescriptor.decode_loop n acc bb = .ok (cs, bb') →
    ∃ ds, cs = acc ++ ds ∧ ds.length = n ∧ bb = charBits ds ++ bb' := by
  induction n with
  | zero =>
    intro acc bb cs bb' h
    obtain ⟨h1, h2⟩ := prod_ok_snd h
    exact ⟨[], by simp [h1], rfl, by simp [h2, charBits]⟩
  | succ n ih =>
    intro acc bb cs bb' h
    unfold DtmfDescriptor.decode_loop at h
    obtain ⟨⟨v, bb1⟩, hread, k⟩ := bind_ok_inv h
    dsimp only [] at k
    obtain ⟨hsplit, hvlt, -, -⟩ := asint_ok hread
    by_cases hv : v < 128
    · rw [if_pos hv] at k
      obtain ⟨ds, hcs, hlen, hbb⟩ := ih (acc ++ [Char.ofNat v]) bb1 cs bb' k
      refine ⟨Char.ofNat v :: ds, by simp [hcs], by simp [hlen], ?_⟩
      rw [hsplit, hbb]
      simp [charBits, char_toNat_ofNat v hv, List.append_assoc]
    · rw [if_neg hv] at k
      exact absurd k (by simp)

theorem audio_decode_loop_ok (n : Nat) :
    ∀ (acc : List AudioComp) (bb : BitBin) (cs : List AudioComp)
      (bb' : BitBin),
    AudioDescriptor.decode_loop n acc bb = .ok (cs, bb') →
    ∃ ds, cs = acc ++ ds ∧ ds.length = n ∧ bb = compBits ds ++ bb' := by
  induction n with
  | zero =>
    intro acc bb cs bb' h
    obtain ⟨h1, h2⟩ := prod_ok_snd h
    exact ⟨[], by simp [h1], rfl, by simp [h2, compBits]⟩
  | succ n ih =>
    intro acc bb cs bb' h
    unfold AudioDescriptor.decode_loop at h
    obtain ⟨⟨ct, bb1⟩, h1, k⟩ := bind_ok_inv h
    dsimp only [] at k
    obtain ⟨⟨iso, bb2⟩, h2, k⟩ := bind_ok_inv k
    dsimp only [] at k
    obtain ⟨⟨bsm, bb3⟩, h3, k⟩ := bind_ok_inv k
    dsimp only [] at k
    obtain ⟨⟨nc, bb4⟩, h4, k⟩ := bind_ok_inv k
    dsimp only [] at k
    obtain ⟨⟨fs, bb5⟩, h5, k⟩ := bind_ok_inv k
    dsimp only [] at k
    obtain ⟨s1, -, -, -⟩ := asint_ok h1
    obtain ⟨s2, -, -, -⟩ := asint_ok h2
    obtain ⟨s3, -, -, -⟩ := asint_ok h3
    obtain ⟨s4, -, -, -⟩ := asint_ok h4
    have s5 := asflag_ok h5
    obtain ⟨ds, hcs, hlen, hbb⟩ := ih (acc ++ [⟨ct, iso, bsm, nc, fs⟩]) bb5 cs bb' k
    refine ⟨⟨ct, iso, bsm, nc, fs⟩ :: ds, by simp [hcs], by simp [hlen], ?_⟩
    rw [s1, s2, s3, s4, s5, hbb]
    simp [compBits, List.append_assoc]

theorem forceCUEI_bits (t l : Nat) (rest : List Nat) :
    bytesToBits (forceCUEI (t :: l :: rest))
      = natToBits t 8 ++ (natToBits l 8 ++ (natToBits 0x43554549 32
        ++ bytesToBits (rest.drop 4))) := by
  show bytesToBits (([t, l] ++ [0x43, 0x55, 0x45, 0x49]) ++ rest.drop 4) = _
  rw [bytesToBits_append, bytesToBits_append, ← cueiBits_eq]
  simp [bytesToBits, List.append_assoc]

theorem c1_avail_aux (b : List Nat) (d : AvailDescriptor)
    (h : AvailDescriptor.full b = .ok (d, [])) :
    d.encode = .ok ({ d with identifier := some "0x43554549" },
      ⟨bytesToBits (forceCUEI b)⟩, none) := by
  rcases b with _ | ⟨t, _ | ⟨l, rest⟩⟩
  · rw [show AvailDescriptor.full [] = .error .bufferUnderrun from rfl] at h
    exact absurd h (by simp)
  · rw [show AvailDescriptor.full [t] = .error .indexError from rfl] at h
    exact absurd h (by simp)
  · unfold AvailDescriptor.full at h
    rw [show AvailDescriptor.init (t :: l :: rest)
      = .ok ({ tag := some t, descriptor_length := some l }, rest) from rfl,
      ok_bind] at h
    dsimp only [] at h
    unfold AvailDescriptor.decode at h
    dsimp only [] at h
    obtain ⟨⟨ident, bb1⟩, hpid, k⟩ := bind_ok_inv h
    dsimp only [] at k
    obtain ⟨hbb1, hlen1⟩ := asdecodedhex_ok hpid
    obtain ⟨⟨pav, bb2⟩, hpav, k⟩ := bind_ok_inv k
    dsimp only [] at k
    obtain ⟨hsplit, hlt, -, -⟩ := asint_ok hpav
    obtain ⟨⟨d3, nb, r⟩, henc, k⟩ := bind_ok_inv k
    dsimp only [] at k
    obtain ⟨hd, hbb2⟩ := prod_ok_snd k
    rw [avail_encode_eval _ t l pav rfl rfl rfl] at henc
    obtain ⟨hd3, -, -⟩ := triple_ok_inv henc
    subst hd hd3
    rw [avail_encode_eval _ t l pav rfl rfl rfl, forceCUEI_bits]
    have key : natToBits pav 32 = bytesToBits (rest.drop 4) := by
      rw [bytesToBits_drop, show 8 * 4 = 32 from rfl, ← hbb1, hsplit,
        ← hbb2, List.append_nil]
    rw [key]

theorem c1_time_aux (b : List Nat) (d : TimeDescriptor)
    (h : TimeDescriptor.full b = .ok (d, [])) :
    d.encode = .ok ({ d with identifier := some "0x43554549" },
      ⟨bytesToBits (forceCUEI b)⟩, none) := by
  rcases b with _ | ⟨t, _ | ⟨l, rest⟩⟩
  · rw [show TimeDescriptor.full [] = .error .bufferUnderrun from rfl] at h
    exact absurd h (by simp)
  · rw [show TimeDescriptor.full [t] = .error .indexError from rfl] at h
    exact absurd h (by simp)
  · unfold TimeDescriptor.full at h
    rw [show TimeDescriptor.init (t :: l :: rest)
      = .ok ({ tag := some t, descriptor_length := some l }, rest) from rfl,
      ok_bind] at h
    dsimp only [] at h
    unfold TimeDescriptor.decode at h
    dsimp only [] at h
    obtain ⟨⟨ident, bb1⟩, hpid, k⟩ := bind_ok_inv h
    dsimp only [] at k
    obtain ⟨hbb1, hlen1⟩ := asdecodedhex_ok hpid
    obtain ⟨⟨sv, bb2⟩, hs, k⟩ := bind_ok_inv k
    dsimp only [] at k
    obtain ⟨hsp1, -, -, -⟩ := asint_ok hs
    obtain ⟨⟨nsv, bb3⟩, hns, k⟩ := bind_ok_inv k
    dsimp only [] at k
    obtain ⟨hsp2, -, -, -⟩ := asint_ok hns
    obtain ⟨⟨ov, bb4⟩, ho, k⟩ := bind_ok_inv k
    dsimp only [] at k
    obtain ⟨hsp3, -, -, -⟩ := asint_ok ho
    obtain ⟨hd, hbb4⟩ := prod_ok_snd k
    subst hd
    rw [time_encode_eval _ t l sv nsv ov rfl rfl rfl rfl rfl,
      forceCUEI_bits]
    have key : natToBits sv 48 ++ (natToBits nsv 32 ++ natToBits ov 16)
        = bytesToBits (rest.drop 4) := by
      rw [bytesToBits_drop, show 8 * 4 = 32 from rfl, ← hbb1, hsp1, hsp2,
        hsp3, ← hbb4, List.append_nil]
    rw [key]

theorem c1_dtmf_aux (b : List Nat) (d : DtmfDescriptor)
    (h : DtmfDescriptor.full b = .ok (d, [])) :
    d.encode = .ok ({ d with identifier := some "0x43554549" },
      ⟨zeroRange (bytesToBits (forceCUEI b)) 59 5⟩, none) := by
  rcases b with _ | ⟨t, _ | ⟨l, rest⟩⟩
  · rw [show DtmfDescriptor.full [] = .error .bufferUnderrun from rfl] at h
    exact absurd h (by simp)
  · rw [show DtmfDescriptor.full [t] = .error .indexError from rfl] at h
    exact absurd h (by simp)
  · unfold DtmfDescriptor.full at h
    rw [show DtmfDescriptor.init (t :: l :: rest)
      = .ok ({ tag := some t, descriptor_length := some l }, rest) from rfl,
      ok_bind] at h
    dsimp only [] at h
    unfold DtmfDescriptor.decode at h
    dsimp only [] at h
    obtain ⟨⟨ident, bb1⟩, hpid, k⟩ := bind_ok_inv h
    dsimp only [] at k
    obtain ⟨hbb1, -⟩ := asdecodedhex_ok hpid
    obtain ⟨⟨pv, bb2⟩, hpre, k⟩ := bind_ok_inv k
    dsimp only [] at k
    obtain ⟨hsp1, -, -, -⟩ := asint_ok hpre
    obtain ⟨⟨cv, bb3⟩, hcnt, k⟩ := bind_ok_inv k
    dsimp only [] at k
    obtain ⟨hsp2, -, -, -⟩ := asint_ok hcnt
    obtain ⟨bb3f, hfwd, k⟩ := bind_ok_inv k
    obtain ⟨hfwd1, hfwd2⟩ := forward_ok hfwd
    obtain ⟨⟨chars, bb4⟩, hloop, k⟩ := bind_ok_inv k
    dsimp only [] at k
    obtain ⟨ds, hch, hdlen, hbits⟩ :=
      dtmf_decode_loop_ok cv [] bb3f chars bb4 hloop
    have hch' : chars = ds := by simpa using hch
    subst hch'
    obtain ⟨⟨d3, nb, r⟩, henc, k⟩ := bind_ok_inv k
    dsimp only [] at k
    obtain ⟨hd, hbb4e⟩ := prod_ok_snd k
    rw [dtmf_encode_eval _ t l pv cv rfl rfl rfl rfl hdlen] at henc
    obtain ⟨hd3, -, -⟩ := triple_ok_inv henc
    subst hd
    subst hd3
    rw [dtmf_encode_eval _ t l pv cv rfl rfl rfl rfl hdlen]
    have hlen5 : (bb3.take 5).length = 5 := by
      rw [List.length_take]
      omega
    have htk : ∀ l2 : Bits, List.take 5 (List.take 5 bb3 ++ l2)
        = List.take 5 bb3 := fun l2 => List.take_left' hlen5
    have hX : (natToBits t 8 ++ (natToBits l 8 ++ (natToBits 0x43554549 32
        ++ (natToBits pv 8 ++ natToBits cv 3)))).length = 59 := by
      simp [natToBits_length]
    have key : bytesToBits (rest.drop 4)
        = natToBits pv 8 ++ (natToBits cv 3
          ++ (bb3.take 5 ++ charBits chars)) := by
      rw [bytesToBits_drop, show 8 * 4 = 32 from rfl, ← hbb1, hsp1, hsp2,
        ← List.take_append_drop 5 bb3, ← hfwd1, hbits, ← hbb4e,
        List.append_nil]
      simp [List.append_assoc, htk]
    have hform : bytesToBits (forceCUEI (t :: l :: rest))
        = (natToBits t 8 ++ (natToBits l 8 ++ (natToBits 0x43554549 32
          ++ (natToBits pv 8 ++ natToBits cv 3))))
          ++ (bb3.take 5 ++ charBits chars) := by
      rw [forceCUEI_bits, key]
      simp [List.append_assoc]
    have hzr := zeroRange_append (natToBits t 8 ++ (natToBits l 8
      ++ (natToBits 0x43554549 32 ++ (natToBits pv 8 ++ natToBits cv 3))))
      (bb3.take 5) (charBits chars)
    rw [hX, hlen5] at hzr
    rw [hform, hzr]
    simp [List.append_assoc]

theorem c1_audio_aux (b : List Nat) (d : AudioDescriptor)
    (h : AudioDescriptor.full b = .ok (d, [])) :
    d.encode = .ok ({ d with identifier := some "0x43554549" },
      ⟨zeroRange (bytesToBits (forceCUEI b)) 52 4⟩, none) := by
  rcases b with _ | ⟨t, _ | ⟨l, rest⟩⟩
  · rw [show AudioDescriptor.full [] = .error .bufferUnderrun from rfl] at h
    exact absurd h (by simp)
  · rw [show AudioDescriptor.full [t] = .error .indexError from rfl] at h
    exact absurd h (by simp)
  · unfold AudioDescriptor.full at h
    rw [show AudioDescriptor.init (t :: l :: rest)
      = .ok ({ tag := some t, descriptor_length := some l }, rest) from rfl,
      ok_bind] at h
    dsimp only [] at h
    unfold AudioDescriptor.decode at h
    dsimp only [] at h
    obtain ⟨⟨ident, bb1⟩, hpid, k⟩ := bind_ok_inv h
    dsimp only [] at k
    obtain ⟨hbb1, -⟩ := asdecodedhex_ok hpid
    obtain ⟨⟨cv, bb2⟩, hcnt, k⟩ := bind_ok_inv k
    dsimp only [] at k
    obtain ⟨hsp1, -, -, -⟩ := asint_ok hcnt
    obtain ⟨bb2f, hfwd, k⟩ := bind_ok_inv k
    obtain ⟨hfwd1, hfwd2⟩ := forward_ok hfwd
    obtain ⟨⟨comps, bb3⟩, hloop, k⟩ := bind_ok_inv k
    dsimp only [] at k
    obtain ⟨ds, hcm, hdlen, hbits⟩ :=
      audio_decode_loop_ok cv [] bb2f comps bb3 hloop
    have hcm' : comps = ds := by simpa using hcm
    subst hcm'
    obtain ⟨hd, hbb3e⟩ := prod_ok_snd k
    subst hd
    rw [audio_encode_eval _ t l cv rfl rfl rfl hdlen]
    have hlen4 : (bb2.take 4).length = 4 := by
      rw [List.length_take]
      omega
    have htk : ∀ l2 : Bits, List.take 4 (List.take 4 bb2 ++ l2)
        = List.take 4 bb2 := fun l2 => List.take_left' hlen4
    have hX : (natToBits t 8 ++ (natToBits l 8 ++ (natToBits 0x43554549 32
        ++ natToBits cv 4))).length = 52 := by
      simp [natToBits_length]
    have key : bytesToBits (rest.drop 4)
        = natToBits cv 4 ++ (bb2.take 4 ++ compBits comps) := by
      rw [bytesToBits_drop, show 8 * 4 = 32 from rfl, ← hbb1, hsp1,
        ← List.take_append_drop 4 bb2, ← hfwd1, hbits, ← hbb3e,
        List.append_nil]
      simp [List.append_assoc, htk]
    have hform : bytesToBits (forceCUEI (t :: l :: rest))
        = (natToBits t 8 ++ (natToBits l 8 ++ (natToBits 0x43554549 32
          ++ natToBits cv 4)))
          ++ (bb2.take 4 ++ compBits comps) := by
      rw [forceCUEI_bits, key]
      simp [List.append_assoc]
    have hzr := zeroRange_append (natToBits t 8 ++ (natToBits l 8
      ++ (natToBits 0x43554549 32 ++ natToBits cv 4)))
      (bb2.take 4) (compBits comps)
    rw [hX, hlen4] at hzr
    rw [hform, hzr]
    simp [List.append_assoc]

/-- C1 (amended): for every byte slice that the Avail, Time, DTMF or Audio
variant decodes completely (no leftover bits), re-encoding the decoded
state reproduces exactly the original bytes with the 32-bit identifier
field forced to the ASCII value CUEI (0x43554549) for the Avail and Time
variants; for the DTMF and Audio variants the reserved filler bits (the 5
bits after dtmf_count, the 4 bits after audio_count) are additionally
rewritten as zeros, so the round trip is exact only modulo identifier and
reserved bits. -/
theorem c1_round_trip (b : List Nat) :
    (∀ d : AvailDescriptor, AvailDescriptor.full b = .ok (d, []) →
      d.encode = .ok ({ d with identifier := some "0x43554549" },
        ⟨bytesToBits (forceCUEI b)⟩, none)) ∧
    (∀ d : TimeDescriptor, TimeDescriptor.full b = .ok (d, []) →
      d.encode = .ok ({ d with identifier := some "0x43554549" },
        ⟨bytesToBits (forceCUEI b)⟩, none)) ∧
    (∀ d : DtmfDescriptor, DtmfDescriptor.full b = .ok (d, []) →
      d.encode = .ok ({ d with identifier := some "0x43554549" },
        ⟨zeroRange (bytesToBits (forceCUEI b)) 59 5⟩, none)) ∧
    (∀ d : AudioDescriptor, AudioDescriptor.full b = .ok (d, []) →
      d.encode = .ok ({ d with identifier := some "0x43554549" },
        ⟨zeroRange (bytesToBits (forceCUEI b)) 52 4⟩, none)) :=
  ⟨fun d h => c1_avail_aux b d h, fun d h => c1_time_aux b d h,
    fun d h => c1_dtmf_aux b d h, fun d h => c1_audio_aux b d h⟩

/-- The avail round-trip example input. -/
def c1WAb : List Nat := [0, 8, 0x43, 0x55, 0x45, 0x49, 0, 0, 0, 7]

/-- The avail round-trip example decoded state. -/
def c1WA : AvailDescriptor :=
  { tag := some 0, descriptor_length := some 8,
    identifier := some "0x43554549", provider_avail_id := some 7 }

/-- The time round-trip example input. -/
def c1WTb : List Nat :=
  [3, 16, 0x43, 0x55, 0x45, 0x49, 1, 2, 3, 4, 5, 6, 7, 8, 9, 10, 11, 12]

/-- The time round-trip example decoded state. -/
def c1WT : TimeDescriptor :=
  { tag := some 3, descriptor_length := some 16, identifier := some "CUEI",
    tai_seconds := some 0x010203040506, tai_ns := some 0x0708090A,
    utc_offset := some 0x0B0C }

/-- The DTMF round-trip example input: the last byte carries dtmf_count 0
in its top 3 bits and the 5 reserved bits set to 1. -/
def c1WDb : List Nat := [1, 6, 0x43, 0x55, 0x45, 0x49, 0, 0x1F]

/-- The DTMF round-trip example decoded state. -/
def c1WD : DtmfDescriptor :=
  { tag := some 1, descriptor_length := some 6,
    identifier := some "0x43554549", preroll := some 0,
    dtmf_count := some 0, dtmf_chars := [] }

/-- The audio round-trip example input. -/
def c1WUb : List Nat := [4, 5, 0x43, 0x55, 0x45, 0x49, 0]

/-- The audio round-trip example decoded state. -/
def c1WU : AudioDescriptor :=
  { tag := some 4, descriptor_length := some 5, identifier := some "CUEI",
    components := [], audio_count := some 0 }

set_option maxRecDepth 10000 in
/-- C1 counterexample: a DTMF slice whose 5 reserved bits are 1 decodes
completely, the decoded identifier attribute is already the forced CUEI
value, and the identifier bytes of the slice already spell CUEI, yet the
re-encoded bytes differ from the original in the last byte because the
reserved bits come back as zeros; so decode then encode does not
reproduce the original bytes modulo the identifier field alone. -/
theorem c1_counterexample :
    DtmfDescriptor.full c1WDb = .ok (c1WD, []) ∧
    c1WD.identifier = some "0x43554549" ∧
    forceCUEI c1WDb = c1WDb ∧
    DtmfDescriptor.encode c1WD
      = .ok (c1WD, ⟨bytesToBits [1, 6, 0x43, 0x55, 0x45, 0x49, 0, 0]⟩,
        none) ∧
    bytesToBits [1, 6, 0x43, 0x55, 0x45, 0x49, 0, 0]
      ≠ bytesToBits c1WDb := by
  refine ⟨by rfl, rfl, by rfl, by rfl, by decide⟩

set_option maxRecDepth 10000 in
/-- Witness for the amended C1 on four concrete slices, one per
variant. -/
theorem c1_round_trip_witness :
    AvailDescriptor.encode c1WA
      = .ok ({ c1WA with identifier := some "0x43554549" },
        ⟨bytesToBits (forceCUEI c1WAb)⟩, none) ∧
    TimeDescriptor.encode c1WT
      = .ok ({ c1WT with identifier := some "0x43554549" },
        ⟨bytesToBits (forceCUEI c1WTb)⟩, none) ∧
    DtmfDescriptor.encode c1WD
      = .ok ({ c1WD with identifier := some "0x43554549" },
        ⟨zeroRange (bytesToBits (forceCUEI c1WDb)) 59 5⟩, none) ∧
    AudioDescriptor.encode c1WU
      = .ok ({ c1WU with identifier := some "0x43554549" },
        ⟨zeroRange (bytesToBits (forceCUEI c1WUb)) 52 4⟩, none) :=
  ⟨(c1_round_trip c1WAb).1 c1WA (by rfl),
    (c1_round_trip c1WTb).2.1 c1WT (by rfl),
    (c1_round_trip c1WDb).2.2.1 c1WD (by rfl),
    (c1_round_trip c1WUb).2.2.2 c1WU (by rfl)⟩
